import Mathlib

/-!
# Verification of the bee-p peer-protocol worker pipeline

Shallow embedding of the protocol core of the `bee-p` node
(crate `bee-protocol`) together with proofs about the claims of its
specification.  Each component is translated from the Rust source:

* `src/bee-protocol/src/worker/kickstart.rs` — the `KickstartWorker`;
* `src/bee-protocol/src/worker/solidifier/milestone.rs` — the
  `MilestoneSolidifierWorker` (`save_index`,
  `trigger_solidification_unchecked`, the drain loop);
* `src/bee-protocol/src/worker/peer/handshaker.rs` — the
  `PeerHandshakerWorker` (`validate_handshake`, `process_message`, `run`);
* `src/bee-protocol/src/worker/transaction/hasher.rs` — the `HasherWorker`
  (`BatchStream::poll_next`, `trigger_hashing`, `send_hashes`).

Machine integers are modelled as `Nat` with explicit `% 2^w` where the
source's wrapping arithmetic matters (release-mode Rust semantics).
Code of the repository that is not part of the source snapshot
(`bee-crypto`'s `BatchHasher`, `bee-tangle`'s traversal, the message
module's TLV machinery) is modelled from the specification and marked as
such in the corresponding doc comment.
-/

namespace BeeP

/-! ## Kickstart worker

From `src/bee-protocol/src/worker/kickstart.rs`.  The worker sleeps one
second per iteration, then reads the tangle watermarks and the number of
handshaked peers; when the firing condition holds it sends
`SetNextMilestone(next_ms)` to the milestone solidifier, enqueues one
milestone request per index of `next_ms..(next_ms + MS_BATCH_SIZE)` and
breaks out of its loop.  Milestone indices are `u32`.
-/

/-- `MS_BATCH_SIZE` from `kickstart.rs` line 19. -/
def MS_BATCH_SIZE : Nat := 5

/-- Modulus of `u32` arithmetic. -/
def U32 : Nat := 2 ^ 32

/-- The state observed by one iteration of the kickstart loop: the two
tangle watermarks and the number of handshaked peers in the peer
manager. -/
structure KickstartState where
  latestSolid : Nat
  latestMilestone : Nat
  handshakedPeers : Nat
  deriving Repr, DecidableEq

/-- The actions of a firing kickstart iteration: the index sent with
`SetNextMilestone` and the list of requested milestone indices. -/
structure KickstartActions where
  setNextMilestone : Nat
  milestoneRequests : List Nat
  deriving Repr, DecidableEq

/-- One iteration of the body of `KickstartWorker::run` (the `default`
branch of the `select!`): `next_ms = latest_solid + 1` (wrapping `u32`
addition), and the worker fires iff there is at least one handshaked
peer and `next_ms + MS_BATCH_SIZE < latest_ms`.  On firing it emits
`SetNextMilestone(next_ms)` and requests each index of the Rust range
`next_ms..(next_ms + MS_BATCH_SIZE)` (empty when the wrapped upper bound
is below `next_ms`). -/
def kickstartStep (s : KickstartState) : Option KickstartActions :=
  if s.handshakedPeers ≠ 0 ∧ ((s.latestSolid + 1) % U32 + MS_BATCH_SIZE) % U32 < s.latestMilestone then
    some ⟨(s.latestSolid + 1) % U32,
          List.range' ((s.latestSolid + 1) % U32)
            ((((s.latestSolid + 1) % U32 + MS_BATCH_SIZE) % U32) - (s.latestSolid + 1) % U32)⟩
  else none

/-- `KickstartWorker::run` observed over a finite sequence of loop
iterations (one `KickstartState` per iteration): the list of action sets
fired.  The worker `break`s right after firing, so at most one element
can ever be produced. -/
def kickstartRun : List KickstartState → List KickstartActions
  | [] => []
  | s :: rest =>
    match kickstartStep s with
    | some a => [a]
    | none => kickstartRun rest

theorem kickstartRun_length_le_one (run : List KickstartState) :
    (kickstartRun run).length ≤ 1 := by
  induction run with
  | nil => simp [kickstartRun]
  | cons s rest ih =>
    unfold kickstartRun
    cases kickstartStep s <;> simp [ih]

/-- C1 counterexample: with `latest-solid = 100`, `latest-milestone = 106`
and one handshaked peer we have `latest - solid = 6 > MS_BATCH_SIZE`, so
the claim says the kickstart fires; the code does not
(`101 + 5 < 106` is false). -/
theorem kickstart_claimed_condition_false :
    ((⟨100, 106, 1⟩ : KickstartState).latestMilestone
        - (⟨100, 106, 1⟩ : KickstartState).latestSolid > MS_BATCH_SIZE) ∧
      (⟨100, 106, 1⟩ : KickstartState).handshakedPeers ≠ 0 ∧
      kickstartStep ⟨100, 106, 1⟩ = none := by
  refine ⟨by decide, by decide, by decide⟩

/-- C1 (amended): in every iteration whose watermarks do not overflow
`u32`, the kickstart fires precisely when at least one handshaked peer
exists and `latest-solid + 1 + MS_BATCH_SIZE < latest-milestone`
(equivalently, `latest-milestone - latest-solid > MS_BATCH_SIZE + 1`);
when it fires it sends `SetNextMilestone(latest-solid + 1)` and requests
exactly the `MS_BATCH_SIZE` indices of
`[latest-solid + 1, latest-solid + 1 + MS_BATCH_SIZE)`; and over any run
it fires at most once: the worker exits permanently after the first
firing iteration. -/
theorem kickstart_spec (s : KickstartState) (run : List KickstartState)
    (hw : s.latestSolid + 1 + MS_BATCH_SIZE < U32) :
    ((kickstartStep s).isSome ↔
      (s.handshakedPeers ≠ 0 ∧ s.latestSolid + 1 + MS_BATCH_SIZE < s.latestMilestone)) ∧
    (∀ a, kickstartStep s = some a →
      a.setNextMilestone = s.latestSolid + 1 ∧
      a.milestoneRequests.length = MS_BATCH_SIZE ∧
      (∀ i, i ∈ a.milestoneRequests ↔
        s.latestSolid + 1 ≤ i ∧ i < s.latestSolid + 1 + MS_BATCH_SIZE)) ∧
    (kickstartRun run).length ≤ 1 := by
  have h1 : (s.latestSolid + 1) % U32 = s.latestSolid + 1 :=
    Nat.mod_eq_of_lt (by omega)
  have h2 : (s.latestSolid + 1 + MS_BATCH_SIZE) % U32 = s.latestSolid + 1 + MS_BATCH_SIZE :=
    Nat.mod_eq_of_lt hw
  refine ⟨?_, ?_, kickstartRun_length_le_one run⟩
  · unfold kickstartStep
    rw [h1, h2]
    by_cases h : s.handshakedPeers ≠ 0 ∧ s.latestSolid + 1 + MS_BATCH_SIZE < s.latestMilestone
    · rw [if_pos h]
      simpa using h
    · rw [if_neg h]
      simpa using h
  · intro a ha
    unfold kickstartStep at ha
    rw [h1, h2] at ha
    split at ha
    · injection ha with ha
      subst ha
      have hn : s.latestSolid + 1 + MS_BATCH_SIZE - (s.latestSolid + 1) = MS_BATCH_SIZE := by omega
      refine ⟨rfl, ?_, ?_⟩
      · simp [hn, List.length_range']
      · intro i
        simp only [hn, List.mem_range'_1]
    · exact absurd ha (by simp)

/-- Witness for `kickstart_spec` at the cold-sync scenario of the spec
(`latest-solid = 100`, `latest-milestone = 110`, one peer). -/
theorem kickstart_spec_witness :
    ((kickstartStep ⟨100, 110, 1⟩).isSome ↔
      ((1 : Nat) ≠ 0 ∧ 100 + 1 + MS_BATCH_SIZE < 110)) ∧
    (∀ a, kickstartStep ⟨100, 110, 1⟩ = some a →
      a.setNextMilestone = 100 + 1 ∧
      a.milestoneRequests.length = MS_BATCH_SIZE ∧
      (∀ i, i ∈ a.milestoneRequests ↔
        100 + 1 ≤ i ∧ i < 100 + 1 + MS_BATCH_SIZE)) ∧
    (kickstartRun []).length ≤ 1 :=
  kickstart_spec ⟨100, 110, 1⟩ [] (by decide)

/-! ## Milestone solidifier

From `src/bee-protocol/src/worker/solidifier/milestone.rs`.  The worker
keeps a queue (`Vec<MilestoneIndex>`) of indices awaiting solidification
plus the next expected index `next_ms_index`.  `save_index` inserts into
the queue with `Vec::binary_search_by(|index| target_index.cmp(index))`
— note the reversed comparator, so the queue is sorted in *descending*
order and `Vec::pop` (which takes the last element) yields the smallest
queued index.
-/

/-- The binary-search loop of `slice::binary_search_by` from the Rust
standard library (used by `save_index` on the queue), specialised to
`Nat` elements: repeatedly halve `[left, right)`; `Ok(mid)` when the
comparator answers `Equal`, `Err(left)` when the window is empty.  Out
of range accesses (which the contract excludes) are modelled by
`List.getD _ _ 0`. -/
def binarySearchLoop (f : Nat → Ordering) (l : List Nat) (left right : Nat) : Except Nat Nat :=
  if h : left < right then
    let mid := left + (right - left) / 2
    match f (l.getD mid 0) with
    | .lt => binarySearchLoop f l (mid + 1) right
    | .gt => binarySearchLoop f l left mid
    | .eq => .ok mid
  else .error left
termination_by right - left
decreasing_by
  all_goals simp_wf
  all_goals omega

/-- `slice::binary_search_by` over the whole list. -/
def binarySearchBy (f : Nat → Ordering) (l : List Nat) : Except Nat Nat :=
  binarySearchLoop f l 0 l.length

/-- `save_index` from `milestone.rs` lines 71–76: binary-search the queue
with the comparator `|index| target_index.cmp(index)`; if absent
(`Err(pos)`), `Vec::insert(pos, target_index)`. -/
def save_index (target_index : Nat) (queue : List Nat) : List Nat :=
  match binarySearchBy (fun index => compare target_index index) queue with
  | .ok _ => queue
  | .error pos => queue.insertIdx pos target_index

/-- The tangle interface consumed by `trigger_solidification_unchecked`:
`get_milestone_hash`, `is_solid_transaction`, and the result of the
depth-first parent traversal.  `missingOf` is Modelled from the spec:
`bee_tangle::traversal::visit_parents_depth_first` is not under `src/`;
per the spec it walks parents depth-first from the milestone hash,
visiting nodes that are not solid, not requested and not already
scheduled, and reports the missing transactions it encounters. -/
structure SolidifierTangle where
  milestoneHash : Nat → Option Nat
  isSolid : Nat → Bool
  missingOf : Nat → List Nat

/-- `trigger_solidification_unchecked` from `milestone.rs` lines 36–69:
if the milestone hash of `target_index` is known and the milestone is
not yet solid, request every missing transaction reported by the
traversal (with `target_index` as priority) and set
`next_ms_index = target_index + 1` (wrapping `u32` addition).  Returns
the new `next_ms_index` and the list of `(hash, priority)` transaction
requests issued. -/
def trigger_solidification_unchecked (t : SolidifierTangle) (target_index : Nat)
    (next_ms_index : Nat) : Nat × List (Nat × Nat) :=
  match t.milestoneHash target_index with
  | some target_hash =>
    if ¬ t.isSolid target_hash then
      ((target_index + 1) % U32, (t.missingOf target_hash).map (fun m => (m, target_index)))
    else (next_ms_index, [])
  | none => (next_ms_index, [])

/-- `queue.pop()` in the drain loop of `MilestoneSolidifierWorker::start`:
`Vec::pop` takes the *last* element. -/
def solidifierPop (queue : List Nat) : Option Nat := queue.getLast?

/-- The inner drain loop of `MilestoneSolidifierWorker::start` (lines
106–114): pop the last queue element; when it equals `next_ms_index`,
run `trigger_solidification_unchecked` and continue; otherwise push it
back and stop.  Returns the final queue, the final `next_ms_index`, and
the transaction requests issued. -/
def solidifierDrain (t : SolidifierTangle) (queue : List Nat) (next_ms_index : Nat) :
    List Nat × Nat × List (Nat × Nat) :=
  match hp : solidifierPop queue with
  | none => (queue, next_ms_index, [])
  | some index =>
    if index = next_ms_index then
      let r := trigger_solidification_unchecked t index next_ms_index
      let rest := solidifierDrain t queue.dropLast r.1
      (rest.1, rest.2.1, r.2 ++ rest.2.2)
    else (queue, next_ms_index, [])
termination_by queue.length
decreasing_by
  simp_wf
  cases queue with
  | nil => simp [solidifierPop] at hp
  | cons a as => simp

/-- One event of the `MilestoneSolidifierWorker` loop (lines 104–115):
store the index with `save_index`, then drain. -/
def solidifierOnEvent (t : SolidifierTangle) (queue : List Nat) (next_ms_index index : Nat) :
    List Nat × Nat × List (Nat × Nat) :=
  solidifierDrain t (save_index index queue) next_ms_index

/-- Concrete tangle for the C2 counterexample: milestone 5 has known hash
77, the milestone is not solid, and the depth-first walk finds the
missing transaction 3. -/
def c2Tangle : SolidifierTangle where
  milestoneHash := fun i => if i = 5 then some 77 else none
  isSolid := fun _ => false
  missingOf := fun h => if h = 77 then [3] else []

/-- C2 counterexample: the walk from milestone 5's hash finds a missing
transaction, yet the solidifier still advances next-expected from 5 to
6 — the code advances unconditionally, not only when the walk completes
with no missing transactions. -/
theorem trigger_solidification_advances_despite_missing :
    c2Tangle.milestoneHash 5 = some 77 ∧
    c2Tangle.isSolid 77 = false ∧
    c2Tangle.missingOf 77 ≠ [] ∧
    (trigger_solidification_unchecked c2Tangle 5 5).1 = 5 + 1 := by
  refine ⟨by decide, by decide, by decide, by decide⟩

/-- C2 (amended): when the milestone solidifier attempts solidification of
the next expected index, with the milestone hash known and the milestone
not yet solid, it schedules a transaction request (priority = milestone
index) for every missing transaction found by the depth-first parent
walk and then advances next-expected to `index + 1` *unconditionally*,
whether or not missing transactions were found; next-expected is left
unchanged exactly when the milestone hash is unknown or the milestone is
already solid. -/
theorem trigger_solidification_spec (t : SolidifierTangle) (target next : Nat)
    (hw : target + 1 < U32) :
    (∀ h, t.milestoneHash target = some h → t.isSolid h = false →
      trigger_solidification_unchecked t target next =
        (target + 1, (t.missingOf h).map (fun m => (m, target)))) ∧
    (t.milestoneHash target = none →
      trigger_solidification_unchecked t target next = (next, [])) ∧
    (∀ h, t.milestoneHash target = some h → t.isSolid h = true →
      trigger_solidification_unchecked t target next = (next, [])) := by
  refine ⟨?_, ?_, ?_⟩
  · intro h hh hs
    unfold trigger_solidification_unchecked
    rw [hh]
    simp [hs, Nat.mod_eq_of_lt hw]
  · intro hh
    unfold trigger_solidification_unchecked
    rw [hh]
  · intro h hh hs
    unfold trigger_solidification_unchecked
    rw [hh]
    simp [hs]

/-- Witness for `trigger_solidification_spec` at the counterexample
tangle. -/
theorem trigger_solidification_spec_witness :
    (∀ h, c2Tangle.milestoneHash 5 = some h → c2Tangle.isSolid h = false →
      trigger_solidification_unchecked c2Tangle 5 5 =
        (5 + 1, (c2Tangle.missingOf h).map (fun m => (m, 5)))) ∧
    (c2Tangle.milestoneHash 5 = none →
      trigger_solidification_unchecked c2Tangle 5 5 = (5, [])) ∧
    (∀ h, c2Tangle.milestoneHash 5 = some h → c2Tangle.isSolid h = true →
      trigger_solidification_unchecked c2Tangle 5 5 = (5, [])) :=
  trigger_solidification_spec c2Tangle 5 5 (by decide)

/-! ### Correctness of the queue insertion (`save_index`)

The queue invariant is `Pairwise (· > ·)` — strictly descending — which
is what the reversed comparator of `save_index` maintains. -/

theorem getD_eq_getElem' {q : List Nat} {j : Nat} (hj : j < q.length) :
    q.getD j 0 = q[j] := by
  simp [List.getD_eq_getElem?_getD, List.getElem?_eq_getElem hj]

theorem pairwise_getD_le {q : List Nat} (hq : q.Pairwise (· > ·)) {i j : Nat}
    (hij : i ≤ j) (hj : j < q.length) : q.getD j 0 ≤ q.getD i 0 := by
  rcases Nat.eq_or_lt_of_le hij with rfl | hlt
  · exact le_rfl
  · have hi : i < q.length := lt_trans hlt hj
    have hgt := List.pairwise_iff_get.mp hq ⟨i, hi⟩ ⟨j, hj⟩ (by simpa using hlt)
    rw [getD_eq_getElem' hj, getD_eq_getElem' hi]
    exact le_of_lt (by simpa using hgt)

theorem binarySearchLoop_ok (t : Nat) (q : List Nat) :
    ∀ gas left right k, right - left ≤ gas → right ≤ q.length →
      binarySearchLoop (fun x => compare t x) q left right = .ok k →
      k < q.length ∧ q.getD k 0 = t := by
  intro gas
  induction gas with
  | zero =>
    intro left right k h0 hrl heq
    unfold binarySearchLoop at heq
    rw [dif_neg (by omega)] at heq
    exact absurd heq (by simp)
  | succ n ih =>
    intro left right k h0 hrl heq
    by_cases hlt : left < right
    · unfold binarySearchLoop at heq
      rw [dif_pos hlt] at heq
      simp only [] at heq
      split at heq
      · exact ih _ right k (by omega) hrl heq
      · exact ih left _ k (by omega) (by omega) heq
      · rename_i hcmp
        injection heq with heq
        subst heq
        exact ⟨by omega, (Nat.compare_eq_eq.mp hcmp).symm⟩
    · unfold binarySearchLoop at heq
      rw [dif_neg hlt] at heq
      exact absurd heq (by simp)

theorem binarySearchLoop_error (t : Nat) (q : List Nat) (hq : q.Pairwise (· > ·)) :
    ∀ gas left right pos, right - left ≤ gas → left ≤ right → right ≤ q.length →
      (∀ j, j < left → t < q.getD j 0) →
      (∀ j, right ≤ j → j < q.length → q.getD j 0 < t) →
      binarySearchLoop (fun x => compare t x) q left right = .error pos →
      pos ≤ q.length ∧ (∀ j, j < pos → t < q.getD j 0) ∧
        (∀ j, pos ≤ j → j < q.length → q.getD j 0 < t) := by
  intro gas
  induction gas with
  | zero =>
    intro left right pos h0 hlr hrl hL hR heq
    unfold binarySearchLoop at heq
    rw [dif_neg (by omega)] at heq
    injection heq with heq
    subst heq
    exact ⟨by omega, hL, fun j hj hjl => hR j (by omega) hjl⟩
  | succ n ih =>
    intro left right pos h0 hlr hrl hL hR heq
    by_cases hlt : left < right
    · unfold binarySearchLoop at heq
      rw [dif_pos hlt] at heq
      simp only [] at heq
      split at heq
      · rename_i hcmp
        refine ih _ right pos (by omega) (by omega) hrl ?_ hR heq
        intro j hj
        rcases lt_or_ge j left with hjl | hjl
        · exact hL j hjl
        · have hmidlen : left + (right - left) / 2 < q.length := by omega
          have hle := pairwise_getD_le hq (show j ≤ left + (right - left) / 2 by omega) hmidlen
          have htm := Nat.compare_eq_lt.mp hcmp
          omega
      · rename_i hcmp
        refine ih left _ pos (by omega) (by omega) (by omega) hL ?_ heq
        intro j hj hjl
        have hle := pairwise_getD_le hq hj hjl
        have htm := Nat.compare_eq_gt.mp hcmp
        omega
      · exact absurd heq (by simp)
    · unfold binarySearchLoop at heq
      rw [dif_neg hlt] at heq
      injection heq with heq
      subst heq
      exact ⟨by omega, hL, fun j hj hjl => hR j (by omega) hjl⟩

theorem binarySearchBy_ok (t : Nat) (q : List Nat) {k : Nat}
    (h : binarySearchBy (fun x => compare t x) q = .ok k) :
    k < q.length ∧ q.getD k 0 = t :=
  binarySearchLoop_ok t q q.length 0 q.length k (by omega) le_rfl h

theorem binarySearchBy_error (t : Nat) (q : List Nat) (hq : q.Pairwise (· > ·)) {pos : Nat}
    (h : binarySearchBy (fun x => compare t x) q = .error pos) :
    pos ≤ q.length ∧ (∀ j, j < pos → t < q.getD j 0) ∧
      (∀ j, pos ≤ j → j < q.length → q.getD j 0 < t) :=
  binarySearchLoop_error t q hq q.length 0 q.length pos (by omega) (by omega) le_rfl
    (fun j hj => absurd hj (Nat.not_lt_zero j)) (fun j hj hjl => absurd hjl (by omega)) h

theorem insertIdx_eq_take_cons_drop (l : List Nat) (n : Nat) (a : Nat) (h : n ≤ l.length) :
    l.insertIdx n a = l.take n ++ a :: l.drop n := by
  induction l generalizing n with
  | nil =>
    have hn : n = 0 := by simpa using h
    subst hn
    simp [List.insertIdx_zero]
  | cons x xs ih =>
    cases n with
    | zero => simp [List.insertIdx_zero]
    | succ m =>
      simp only [List.insertIdx_succ_cons, List.take_succ_cons, List.drop_succ_cons,
        List.cons_append, List.cons.injEq]
      exact ⟨trivial, ih m (by simpa using h)⟩

theorem mem_take_bound {q : List Nat} {pos x : Nat} (hx : x ∈ q.take pos) :
    ∃ j, j < pos ∧ ∃ hj : j < q.length, q[j] = x := by
  obtain ⟨j, hj, hget⟩ := List.mem_iff_getElem.mp hx
  have hjlen : j < q.length := by
    have h2 := hj
    rw [List.length_take] at h2
    omega
  have hjpos : j < pos := by
    have h2 := hj
    rw [List.length_take] at h2
    omega
  rw [List.getElem_take] at hget
  exact ⟨j, hjpos, hjlen, hget⟩

theorem mem_drop_bound {q : List Nat} {pos x : Nat} (hx : x ∈ q.drop pos) :
    ∃ j, pos ≤ j ∧ ∃ hj : j < q.length, q[j] = x := by
  obtain ⟨m, hm, hget⟩ := List.mem_iff_getElem.mp hx
  have hmlen : pos + m < q.length := by
    have h2 := hm
    rw [List.length_drop] at h2
    omega
  rw [List.getElem_drop] at hget
  exact ⟨pos + m, by omega, hmlen, hget⟩

theorem pairwise_getLast_min (q : List Nat) :
    q.Pairwise (· > ·) → ∀ last, q.getLast? = some last → ∀ x ∈ q, last ≤ x := by
  induction q with
  | nil =>
    intro _ last hlast
    simp at hlast
  | cons a as ih =>
    intro hq last hlast x hx
    cases as with
    | nil =>
      simp at hlast hx
      omega
    | cons b bs =>
      rw [List.getLast?_cons_cons] at hlast
      have hpair := List.pairwise_cons.mp hq
      rcases List.mem_cons.mp hx with rfl | hx'
      · exact le_of_lt (hpair.1 last (List.mem_of_getLast?_eq_some hlast))
      · exact ih hpair.2 last hlast x hx'

/-- C7: over a strictly descending queue (the sort order that the
reversed comparator of `save_index` establishes, so that `Vec::pop`
takes the numerically smallest index), `save_index` of an index already
present leaves the queue unchanged; the result is always sorted; a new
index is inserted at the position that keeps the queue sorted
(the result is a permutation of pushing the index, still sorted); and
the drain loop's take (`solidifierPop`) always yields the smallest
queued index. -/
theorem save_index_spec (q : List Nat) (i : Nat) (hq : q.Pairwise (· > ·)) :
    (i ∈ q → save_index i q = q) ∧
    (save_index i q).Pairwise (· > ·) ∧
    (i ∉ q → (save_index i q).Perm (i :: q)) ∧
    (∀ last, solidifierPop (save_index i q) = some last →
      ∀ x ∈ save_index i q, last ≤ x) := by
  have hmain : (i ∈ q → save_index i q = q) ∧ (save_index i q).Pairwise (· > ·) ∧
      (i ∉ q → (save_index i q).Perm (i :: q)) := by
    cases hbs : binarySearchBy (fun index => compare i index) q with
    | ok k =>
      have hsi : save_index i q = q := by
        unfold save_index
        rw [hbs]
      obtain ⟨hk, hval⟩ := binarySearchBy_ok i q hbs
      refine ⟨fun _ => hsi, by rw [hsi]; exact hq, fun hni => ?_⟩
      exfalso
      apply hni
      rw [← hval, getD_eq_getElem' hk]
      exact List.getElem_mem hk
    | error pos =>
      obtain ⟨hle, hL, hR⟩ := binarySearchBy_error i q hq hbs
      have hsi : save_index i q = q.insertIdx pos i := by
        unfold save_index
        rw [hbs]
      have hsplit := insertIdx_eq_take_cons_drop q pos i hle
      refine ⟨?_, ?_, ?_⟩
      · intro hi
        exfalso
        obtain ⟨j, hj, hget⟩ := List.mem_iff_getElem.mp hi
        rcases lt_or_ge j pos with h | h
        · have h2 := hL j h
          rw [getD_eq_getElem' hj, hget] at h2
          omega
        · have h2 := hR j h hj
          rw [getD_eq_getElem' hj, hget] at h2
          omega
      · rw [hsi, hsplit, List.pairwise_append]
        refine ⟨List.Pairwise.sublist (List.take_sublist pos q) hq, ?_, ?_⟩
        · rw [List.pairwise_cons]
          refine ⟨?_, List.Pairwise.sublist (List.drop_sublist pos q) hq⟩
          intro b hb
          obtain ⟨j, hjpos, hjlen, hget⟩ := mem_drop_bound hb
          have h2 := hR j hjpos hjlen
          rw [getD_eq_getElem' hjlen, hget] at h2
          exact h2
        · intro a ha b hb
          obtain ⟨j, hjpos, hjlen, hget⟩ := mem_take_bound ha
          have hai := hL j hjpos
          rw [getD_eq_getElem' hjlen, hget] at hai
          rcases List.mem_cons.mp hb with rfl | hb'
          · exact hai
          · obtain ⟨m, hmpos, hmlen, hmget⟩ := mem_drop_bound hb'
            have hbi := hR m hmpos hmlen
            rw [getD_eq_getElem' hmlen, hmget] at hbi
            omega
      · intro _
        rw [hsi, hsplit]
        have hperm := @List.perm_middle _ i (q.take pos) (q.drop pos)
        rwa [List.take_append_drop] at hperm
  refine ⟨hmain.1, hmain.2.1, hmain.2.2, ?_⟩
  intro last hlast x hx
  exact pairwise_getLast_min (save_index i q) hmain.2.1 last hlast x hx

/-- Witness for `save_index_spec` on the concrete queue `[7, 3]` with new
index `5`. -/
theorem save_index_spec_witness :
    ([7, 3] : List Nat).Pairwise (· > ·) ∧
    ((5 ∈ [7, 3] → save_index 5 [7, 3] = [7, 3]) ∧
      (save_index 5 [7, 3]).Pairwise (· > ·) ∧
      ((5 : Nat) ∉ [7, 3] → (save_index 5 [7, 3]).Perm (5 :: [7, 3])) ∧
      (∀ last, solidifierPop (save_index 5 [7, 3]) = some last →
        ∀ x ∈ save_index 5 [7, 3], last ≤ x)) :=
  ⟨by decide, save_index_spec [7, 3] 5 (by decide)⟩

/-! ## Peer handshaker

From `src/bee-protocol/src/worker/peer/handshaker.rs`.  A per-connection
state machine with states `{Awaiting, Done, Duplicate}`.  The wrapping
`u64` arithmetic of the timestamp check is modelled with explicit
`% 2^64` (release-mode Rust semantics); `SystemTime::now()` is the
explicit `now` parameter. -/

/-- Modulus of `u64` arithmetic. -/
def U64 : Nat := 2 ^ 64

/-- A socket address, reduced to the fields the handshaker consults. -/
structure SocketAddr where
  ip : Nat
  port : Nat
  deriving Repr, DecidableEq

/-- Connection origin (`bee_network::Origin`). -/
inductive Origin where
  | inbound
  | outbound
  deriving Repr, DecidableEq

/-- The fields of the received `Handshake` message. -/
structure HandshakeMsg where
  port : Nat
  timestamp : Nat
  coordinator : List Nat
  minimum_weight_magnitude : Nat
  supported_versions : List Nat
  deriving Repr, DecidableEq

/-- The protocol configuration fields consulted by `validate_handshake`. -/
structure ProtocolConfig where
  coordinator_public_key_bytes : List Nat
  mwm : Nat
  handshake_window : Nat
  deriving Repr, DecidableEq

/-- `HandshakeError` from `handshaker.rs` lines 41–49. -/
inductive HandshakeError where
  | InvalidTimestampDiff (diff : Int)
  | CoordinatorMismatch
  | MwmMismatch (ours theirs : Nat)
  | UnsupportedVersion (version : Nat)
  | PortMismatch (ours theirs : Nat)
  | AlreadyHandshaked
  deriving Repr, DecidableEq

/-- `HandshakeStatus` from `handshaker.rs` lines 54–58. -/
inductive HandshakeStatus where
  | awaiting
  | done
  | duplicate
  deriving Repr, DecidableEq

/-- A `u64` value reinterpreted as `i64` (two's complement). -/
def i64OfU64 (v : Nat) : Int :=
  if v % U64 < 2 ^ 63 then ((v % U64 : Nat) : Int) else ((v % U64 : Nat) : Int) - (U64 : Int)

/-- Wrapping `u64` subtraction. -/
def wrapSub64 (a b : Nat) : Nat := (a % U64 + U64 - b % U64) % U64

/-- The timestamp-difference computation of `validate_handshake`
line 181: `((timestamp - handshake.timestamp) as i64).abs() as u64`,
with wrapping `u64` subtraction. -/
def timestampDiffAbs (now peerTs : Nat) : Nat :=
  (i64OfU64 (wrapSub64 now peerTs)).natAbs

/-- The address resolved by a successful handshake: for outbound
connections the dialled address, for inbound the peer's IP paired with
the announced port (`handshaker.rs` lines 202–215). -/
def resolvedAddress (origin : Origin) (peerAddr : SocketAddr) (h : HandshakeMsg) : SocketAddr :=
  match origin with
  | .outbound => peerAddr
  | .inbound => ⟨peerAddr.ip, h.port⟩

/-- `PeerHandshakerWorker::validate_handshake` (lines 175–225) as a pure
function of the local clock `now` (milliseconds), the configuration, the
connection's origin and address, the addresses of the already-handshaked
peers in the peer manager, and the received handshake.  The external
`messages_supported_version` (the `message` module is not under `src/`)
is a parameter `msv`.  Returns the validation result together with the
`self.status = Duplicate` assignment performed in the duplicate
branch. -/
def validate_handshake (msv : List Nat → Except Nat Unit) (cfg : ProtocolConfig)
    (origin : Origin) (peerAddr : SocketAddr) (now : Nat)
    (handshakedAddrs : List SocketAddr) (h : HandshakeMsg) :
    Except HandshakeError SocketAddr × Bool :=
  if timestampDiffAbs now h.timestamp > (cfg.handshake_window * 1000) % U64 then
    (.error (.InvalidTimestampDiff (timestampDiffAbs now h.timestamp)), false)
  else if ¬ cfg.coordinator_public_key_bytes = h.coordinator then
    (.error .CoordinatorMismatch, false)
  else if cfg.mwm ≠ h.minimum_weight_magnitude then
    (.error (.MwmMismatch cfg.mwm h.minimum_weight_magnitude), false)
  else
    match msv h.supported_versions with
    | .error version => (.error (.UnsupportedVersion version), false)
    | .ok _ =>
      match (match origin with
             | .outbound =>
               if peerAddr.port ≠ h.port then
                 Except.error (HandshakeError.PortMismatch peerAddr.port h.port)
               else Except.ok peerAddr
             | .inbound => Except.ok (SocketAddr.mk peerAddr.ip h.port)) with
      | .error e => (.error e, false)
      | .ok address =>
        if address ∈ handshakedAddrs then (.error .AlreadyHandshaked, true)
        else (.ok address, false)

/-- Wire id of the Handshake message.  Modelled from the spec: the
`message` module defining `Handshake::ID` is not under `src/`; the
spec's wire table assigns the Handshake message id `0x01` (consistent
with `MilestoneRequest::ID = 0x03` and `Heartbeat::ID = 0x06` in
`src/bee-protocol/src/message/v2/`). -/
def HANDSHAKE_ID : Nat := 1

/-- Mutable per-connection state of the handshaker: the status machine
plus the node's *invalid-messages* metric. -/
structure ConnState where
  status : HandshakeStatus
  invalidMessages : Nat
  deriving Repr, DecidableEq

deriving instance DecidableEq for Except

/-- A framed message as seen by `process_message`: the header type and —
for handshake-typed frames — the outcome of `tlv_from_bytes::<Handshake>`
(the TLV machinery is not under `src/`; it is modelled abstractly by the
parse outcome carried with the frame). -/
structure WireMessage where
  msgType : Nat
  parse : Except Unit HandshakeMsg
  deriving Repr, DecidableEq

/-- `PeerHandshakerWorker::process_message` (lines 227–274): a handshake
frame is parsed and validated — success registers the resolved address
in the peer manager and sets the status to `Done`; a validation failure
only logs (the status changes to `Duplicate` exactly when the duplicate
branch of `validate_handshake` fired); a parse failure or any
non-handshake frame increments the *invalid-messages* metric and is
otherwise ignored. -/
def process_message (msv : List Nat → Except Nat Unit) (cfg : ProtocolConfig)
    (origin : Origin) (peerAddr : SocketAddr) (now : Nat)
    (mgr : List SocketAddr) (conn : ConnState) (m : WireMessage) :
    List SocketAddr × ConnState :=
  if m.msgType = HANDSHAKE_ID then
    match m.parse with
    | .ok hs =>
      match validate_handshake msv cfg origin peerAddr now mgr hs with
      | (.ok address, _) => (mgr ++ [address], { conn with status := .done })
      | (.error _, dup) =>
        (mgr, if dup then { conn with status := .duplicate } else conn)
    | .error _ => (mgr, { conn with invalidMessages := conn.invalidMessages + 1 })
  else (mgr, { conn with invalidMessages := conn.invalidMessages + 1 })

/-- The message loop of `PeerHandshakerWorker::run` (lines 122–129):
process messages until the status becomes `Done` or `Duplicate`
(`break`), returning the final peer-manager addresses and connection
state. -/
def handshaker_run (msv : List Nat → Except Nat Unit) (cfg : ProtocolConfig)
    (origin : Origin) (peerAddr : SocketAddr) (now : Nat)
    (mgr : List SocketAddr) (conn : ConnState) :
    List WireMessage → List SocketAddr × ConnState
  | [] => (mgr, conn)
  | m :: rest =>
    let r := process_message msv cfg origin peerAddr now mgr conn m
    match r.2.status with
    | .done => r
    | .duplicate => r
    | .awaiting => handshaker_run msv cfg origin peerAddr now r.1 r.2 rest

/-! ### Handshake validation lemmas -/

theorem timestampDiffAbs_eq {now ts : Nat} (hnow : now < 2 ^ 63) (hts : ts < 2 ^ 63) :
    timestampDiffAbs now ts = ((now : Int) - ts).natAbs := by
  unfold timestampDiffAbs i64OfU64 wrapSub64 U64
  have hnm : now % 2 ^ 64 = now := Nat.mod_eq_of_lt (by omega)
  have htm : ts % 2 ^ 64 = ts := Nat.mod_eq_of_lt (by omega)
  rw [hnm, htm]
  rcases le_or_lt ts now with hle | hlt
  · have hv : (now + 2 ^ 64 - ts) % 2 ^ 64 = now - ts := by
      have h2 : now + 2 ^ 64 - ts = (now - ts) + 2 ^ 64 := by omega
      rw [h2, Nat.add_mod_right]
      exact Nat.mod_eq_of_lt (by omega)
    rw [hv]
    have hv2 : (now - ts) % 2 ^ 64 = now - ts := Nat.mod_eq_of_lt (by omega)
    rw [hv2, if_pos (by omega : now - ts < 2 ^ 63)]
    omega
  · have hv : (now + 2 ^ 64 - ts) % 2 ^ 64 = now + 2 ^ 64 - ts :=
      Nat.mod_eq_of_lt (by omega)
    rw [hv, hv]
    rw [if_neg (by omega)]
    omega

/-- Modelled from the spec: two supported-versions bit-sets (byte lists)
have a version in common when some byte position carries a common set
bit. -/
def commonVersion (ours theirs : List Nat) : Bool :=
  (List.range (max ours.length theirs.length)).any fun i =>
    (List.range 8).any fun b => (ours.getD i 0).testBit b && (theirs.getD i 0).testBit b

/-- Modelled from the spec: `messages_supported_version` (the `message`
module is not under `src/`) succeeds iff the peer announces at least one
version in common with the local `MESSAGES_VERSIONS` bit-set; the
version number reported on failure is left at 0 — the spec does not
constrain it and no claim depends on it. -/
def messages_supported_version (localVersions vs : List Nat) : Except Nat Unit :=
  if commonVersion localVersions vs then .ok () else .error 0

theorem messages_supported_version_isOk (localVersions vs : List Nat) :
    (messages_supported_version localVersions vs).isOk = commonVersion localVersions vs := by
  unfold messages_supported_version
  by_cases hc : commonVersion localVersions vs
  · rw [if_pos hc, hc]
    rfl
  · rw [if_neg hc, Bool.not_eq_true] at *
    rw [hc]
    rfl

theorem validate_handshake_err_time
    (msv : List Nat → Except Nat Unit) (cfg : ProtocolConfig) (origin : Origin)
    (peerAddr : SocketAddr) (now : Nat) (mgr : List SocketAddr) (h : HandshakeMsg)
    (h1 : timestampDiffAbs now h.timestamp > (cfg.handshake_window * 1000) % U64) :
    validate_handshake msv cfg origin peerAddr now mgr h =
      (.error (.InvalidTimestampDiff (timestampDiffAbs now h.timestamp)), false) := by
  unfold validate_handshake
  rw [if_pos h1]

theorem validate_handshake_err_coord
    (msv : List Nat → Except Nat Unit) (cfg : ProtocolConfig) (origin : Origin)
    (peerAddr : SocketAddr) (now : Nat) (mgr : List SocketAddr) (h : HandshakeMsg)
    (h1 : ¬ timestampDiffAbs now h.timestamp > (cfg.handshake_window * 1000) % U64)
    (h2 : cfg.coordinator_public_key_bytes ≠ h.coordinator) :
    validate_handshake msv cfg origin peerAddr now mgr h =
      (.error .CoordinatorMismatch, false) := by
  unfold validate_handshake
  rw [if_neg h1, if_pos h2]

theorem validate_handshake_err_mwm
    (msv : List Nat → Except Nat Unit) (cfg : ProtocolConfig) (origin : Origin)
    (peerAddr : SocketAddr) (now : Nat) (mgr : List SocketAddr) (h : HandshakeMsg)
    (h1 : ¬ timestampDiffAbs now h.timestamp > (cfg.handshake_window * 1000) % U64)
    (h2 : cfg.coordinator_public_key_bytes = h.coordinator)
    (h3 : cfg.mwm ≠ h.minimum_weight_magnitude) :
    validate_handshake msv cfg origin peerAddr now mgr h =
      (.error (.MwmMismatch cfg.mwm h.minimum_weight_magnitude), false) := by
  unfold validate_handshake
  rw [if_neg h1, if_neg (by simpa using h2), if_pos h3]

theorem validate_handshake_err_version
    (msv : List Nat → Except Nat Unit) (cfg : ProtocolConfig) (origin : Origin)
    (peerAddr : SocketAddr) (now : Nat) (mgr : List SocketAddr) (h : HandshakeMsg) (v : Nat)
    (h1 : ¬ timestampDiffAbs now h.timestamp > (cfg.handshake_window * 1000) % U64)
    (h2 : cfg.coordinator_public_key_bytes = h.coordinator)
    (h3 : cfg.mwm = h.minimum_weight_magnitude)
    (hv : msv h.supported_versions = .error v) :
    validate_handshake msv cfg origin peerAddr now mgr h =
      (.error (.UnsupportedVersion v), false) := by
  unfold validate_handshake
  rw [if_neg h1, if_neg (by simpa using h2), if_neg (by simpa using h3), hv]

theorem validate_handshake_err_port
    (msv : List Nat → Except Nat Unit) (cfg : ProtocolConfig)
    (peerAddr : SocketAddr) (now : Nat) (mgr : List SocketAddr) (h : HandshakeMsg) (u : Unit)
    (h1 : ¬ timestampDiffAbs now h.timestamp > (cfg.handshake_window * 1000) % U64)
    (h2 : cfg.coordinator_public_key_bytes = h.coordinator)
    (h3 : cfg.mwm = h.minimum_weight_magnitude)
    (hv : msv h.supported_versions = .ok u)
    (hp : peerAddr.port ≠ h.port) :
    validate_handshake msv cfg .outbound peerAddr now mgr h =
      (.error (.PortMismatch peerAddr.port h.port), false) := by
  unfold validate_handshake
  rw [if_neg h1, if_neg (by simpa using h2), if_neg (by simpa using h3), hv]
  simp only []
  rw [if_pos hp]

theorem validate_handshake_dup
    (msv : List Nat → Except Nat Unit) (cfg : ProtocolConfig) (origin : Origin)
    (peerAddr : SocketAddr) (now : Nat) (mgr : List SocketAddr) (h : HandshakeMsg) (u : Unit)
    (h1 : ¬ timestampDiffAbs now h.timestamp > (cfg.handshake_window * 1000) % U64)
    (h2 : cfg.coordinator_public_key_bytes = h.coordinator)
    (h3 : cfg.mwm = h.minimum_weight_magnitude)
    (hv : msv h.supported_versions = .ok u)
    (hp : origin = .outbound → peerAddr.port = h.port)
    (hmem : resolvedAddress origin peerAddr h ∈ mgr) :
    validate_handshake msv cfg origin peerAddr now mgr h =
      (.error .AlreadyHandshaked, true) := by
  cases origin with
  | outbound =>
    have hp' := hp rfl
    unfold resolvedAddress at hmem
    simp [validate_handshake, h1, h2, h3, hv, hp', hmem]
  | inbound =>
    unfold resolvedAddress at hmem
    simp [validate_handshake, h1, h2, h3, hv, hmem]

theorem validate_handshake_ok
    (msv : List Nat → Except Nat Unit) (cfg : ProtocolConfig) (origin : Origin)
    (peerAddr : SocketAddr) (now : Nat) (mgr : List SocketAddr) (h : HandshakeMsg) (u : Unit)
    (h1 : ¬ timestampDiffAbs now h.timestamp > (cfg.handshake_window * 1000) % U64)
    (h2 : cfg.coordinator_public_key_bytes = h.coordinator)
    (h3 : cfg.mwm = h.minimum_weight_magnitude)
    (hv : msv h.supported_versions = .ok u)
    (hp : origin = .outbound → peerAddr.port = h.port)
    (hmem : resolvedAddress origin peerAddr h ∉ mgr) :
    validate_handshake msv cfg origin peerAddr now mgr h =
      (.ok (resolvedAddress origin peerAddr h), false) := by
  cases origin with
  | outbound =>
    have hp' := hp rfl
    unfold resolvedAddress at hmem ⊢
    simp [validate_handshake, h1, h2, h3, hv, hp', hmem]
  | inbound =>
    unfold resolvedAddress at hmem ⊢
    simp [validate_handshake, h1, h2, h3, hv, hmem]

theorem except_isOk_iff {ε α : Type} (e : Except ε α) : e.isOk = true ↔ ∃ a, e = .ok a := by
  cases e <;> simp [Except.isOk, Except.toBool]

/-- C4: `validate_handshake` succeeds — returning the resolved address —
iff the absolute difference between the local clock and the peer's
timestamp is at most the handshake window, the coordinator public keys
are equal, the minimum-weight-magnitude values are equal, at least one
protocol version is supported in common, outbound connections announce
the dialled port (inbound connections resolve to the peer's IP with the
announced port), and no already-handshaked peer has the resolved
address; and each failing check produces its distinct `HandshakeError`,
in validation order. -/
theorem validate_handshake_spec
    (msv : List Nat → Except Nat Unit) (localVersions : List Nat)
    (cfg : ProtocolConfig) (origin : Origin) (peerAddr : SocketAddr) (now : Nat)
    (mgr : List SocketAddr) (h : HandshakeMsg)
    (hmsv : ∀ vs, (msv vs).isOk = commonVersion localVersions vs)
    (hnow : now < 2 ^ 63) (hts : h.timestamp < 2 ^ 63)
    (hwin : cfg.handshake_window * 1000 < U64) :
    ((validate_handshake msv cfg origin peerAddr now mgr h).1.isOk ↔
      (((now : Int) - h.timestamp).natAbs ≤ cfg.handshake_window * 1000 ∧
        cfg.coordinator_public_key_bytes = h.coordinator ∧
        cfg.mwm = h.minimum_weight_magnitude ∧
        commonVersion localVersions h.supported_versions = true ∧
        (origin = .outbound → peerAddr.port = h.port) ∧
        resolvedAddress origin peerAddr h ∉ mgr)) ∧
    (∀ a s, validate_handshake msv cfg origin peerAddr now mgr h = (.ok a, s) →
      a = resolvedAddress origin peerAddr h ∧ s = false) ∧
    (¬ ((now : Int) - h.timestamp).natAbs ≤ cfg.handshake_window * 1000 →
      validate_handshake msv cfg origin peerAddr now mgr h =
        (.error (.InvalidTimestampDiff (((now : Int) - h.timestamp).natAbs)), false)) ∧
    (((now : Int) - h.timestamp).natAbs ≤ cfg.handshake_window * 1000 →
      cfg.coordinator_public_key_bytes ≠ h.coordinator →
      validate_handshake msv cfg origin peerAddr now mgr h =
        (.error .CoordinatorMismatch, false)) ∧
    (((now : Int) - h.timestamp).natAbs ≤ cfg.handshake_window * 1000 →
      cfg.coordinator_public_key_bytes = h.coordinator →
      cfg.mwm ≠ h.minimum_weight_magnitude →
      validate_handshake msv cfg origin peerAddr now mgr h =
        (.error (.MwmMismatch cfg.mwm h.minimum_weight_magnitude), false)) ∧
    (∀ v, ((now : Int) - h.timestamp).natAbs ≤ cfg.handshake_window * 1000 →
      cfg.coordinator_public_key_bytes = h.coordinator →
      cfg.mwm = h.minimum_weight_magnitude →
      msv h.supported_versions = .error v →
      validate_handshake msv cfg origin peerAddr now mgr h =
        (.error (.UnsupportedVersion v), false)) ∧
    (((now : Int) - h.timestamp).natAbs ≤ cfg.handshake_window * 1000 →
      cfg.coordinator_public_key_bytes = h.coordinator →
      cfg.mwm = h.minimum_weight_magnitude →
      commonVersion localVersions h.supported_versions = true →
      origin = .outbound → peerAddr.port ≠ h.port →
      validate_handshake msv cfg origin peerAddr now mgr h =
        (.error (.PortMismatch peerAddr.port h.port), false)) ∧
    (((now : Int) - h.timestamp).natAbs ≤ cfg.handshake_window * 1000 →
      cfg.coordinator_public_key_bytes = h.coordinator →
      cfg.mwm = h.minimum_weight_magnitude →
      commonVersion localVersions h.supported_versions = true →
      (origin = .outbound → peerAddr.port = h.port) →
      resolvedAddress origin peerAddr h ∈ mgr →
      validate_handshake msv cfg origin peerAddr now mgr h =
        (.error .AlreadyHandshaked, true)) := by
  have hts' : timestampDiffAbs now h.timestamp = ((now : Int) - h.timestamp).natAbs :=
    timestampDiffAbs_eq hnow hts
  have hwin' : (cfg.handshake_window * 1000) % U64 = cfg.handshake_window * 1000 :=
    Nat.mod_eq_of_lt hwin
  have hle_iff : (¬ timestampDiffAbs now h.timestamp > (cfg.handshake_window * 1000) % U64) ↔
      ((now : Int) - h.timestamp).natAbs ≤ cfg.handshake_window * 1000 := by
    rw [hts', hwin']
    omega
  have hcommon : ∀ u, msv h.supported_versions = .ok u →
      commonVersion localVersions h.supported_versions = true := by
    intro u hu
    rw [← hmsv, hu]
    rfl
  have hcommon' : commonVersion localVersions h.supported_versions = true →
      ∃ u, msv h.supported_versions = .ok u := by
    intro hc
    refine (except_isOk_iff _).mp ?_
    rw [hmsv h.supported_versions, hc]
  have hiff : (validate_handshake msv cfg origin peerAddr now mgr h).1.isOk ↔
      (((now : Int) - h.timestamp).natAbs ≤ cfg.handshake_window * 1000 ∧
        cfg.coordinator_public_key_bytes = h.coordinator ∧
        cfg.mwm = h.minimum_weight_magnitude ∧
        commonVersion localVersions h.supported_versions = true ∧
        (origin = .outbound → peerAddr.port = h.port) ∧
        resolvedAddress origin peerAddr h ∉ mgr) := by
    constructor
    · intro hok
      have c1 : ((now : Int) - h.timestamp).natAbs ≤ cfg.handshake_window * 1000 := by
        by_contra hc
        rw [validate_handshake_err_time msv cfg origin peerAddr now mgr h
          (by rw [hts', hwin']; omega)] at hok
        simp [Except.isOk, Except.toBool] at hok
      have c2 : cfg.coordinator_public_key_bytes = h.coordinator := by
        by_contra hc
        rw [validate_handshake_err_coord msv cfg origin peerAddr now mgr h
          (hle_iff.mpr c1) hc] at hok
        simp [Except.isOk, Except.toBool] at hok
      have c3 : cfg.mwm = h.minimum_weight_magnitude := by
        by_contra hc
        rw [validate_handshake_err_mwm msv cfg origin peerAddr now mgr h
          (hle_iff.mpr c1) c2 hc] at hok
        simp [Except.isOk, Except.toBool] at hok
      have c4ex : ∃ u, msv h.supported_versions = .ok u := by
        cases hmv : msv h.supported_versions with
        | ok u => exact ⟨u, rfl⟩
        | error v =>
          rw [validate_handshake_err_version msv cfg origin peerAddr now mgr h v
            (hle_iff.mpr c1) c2 c3 hmv] at hok
          simp [Except.isOk, Except.toBool] at hok
      obtain ⟨u, hu⟩ := c4ex
      have c4 := hcommon u hu
      have c5 : origin = .outbound → peerAddr.port = h.port := by
        intro ho
        by_contra hc
        subst ho
        rw [validate_handshake_err_port msv cfg peerAddr now mgr h u
          (hle_iff.mpr c1) c2 c3 hu hc] at hok
        simp [Except.isOk, Except.toBool] at hok
      have c6 : resolvedAddress origin peerAddr h ∉ mgr := by
        intro hc
        rw [validate_handshake_dup msv cfg origin peerAddr now mgr h u
          (hle_iff.mpr c1) c2 c3 hu c5 hc] at hok
        simp [Except.isOk, Except.toBool] at hok
      exact ⟨c1, c2, c3, c4, c5, c6⟩
    · rintro ⟨c1, c2, c3, c4, c5, c6⟩
      obtain ⟨u, hu⟩ := hcommon' c4
      rw [validate_handshake_ok msv cfg origin peerAddr now mgr h u
        (hle_iff.mpr c1) c2 c3 hu c5 c6]
      rfl
  refine ⟨hiff, ?_, ?_, ?_, ?_, ?_, ?_, ?_⟩
  · intro a s hres
    have hok : (validate_handshake msv cfg origin peerAddr now mgr h).1.isOk := by
      rw [hres]
      rfl
    obtain ⟨c1, c2, c3, c4, c5, c6⟩ := hiff.mp hok
    obtain ⟨u, hu⟩ := hcommon' c4
    rw [validate_handshake_ok msv cfg origin peerAddr now mgr h u
      (hle_iff.mpr c1) c2 c3 hu c5 c6] at hres
    simp only [Prod.mk.injEq, Except.ok.injEq] at hres
    exact ⟨hres.1.symm, hres.2.symm⟩
  · intro hno
    have hres := validate_handshake_err_time msv cfg origin peerAddr now mgr h
      (by rw [hts', hwin']; omega)
    rw [hts'] at hres
    exact hres
  · intro c1 hc
    exact validate_handshake_err_coord msv cfg origin peerAddr now mgr h
      (hle_iff.mpr c1) hc
  · intro c1 c2 hc
    exact validate_handshake_err_mwm msv cfg origin peerAddr now mgr h
      (hle_iff.mpr c1) c2 hc
  · intro v c1 c2 c3 hv
    exact validate_handshake_err_version msv cfg origin peerAddr now mgr h v
      (hle_iff.mpr c1) c2 c3 hv
  · intro c1 c2 c3 c4 ho hp
    subst ho
    obtain ⟨u, hu⟩ := hcommon' c4
    exact validate_handshake_err_port msv cfg peerAddr now mgr h u
      (hle_iff.mpr c1) c2 c3 hu hp
  · intro c1 c2 c3 c4 hp hmem
    obtain ⟨u, hu⟩ := hcommon' c4
    exact validate_handshake_dup msv cfg origin peerAddr now mgr h u
      (hle_iff.mpr c1) c2 c3 hu hp hmem

/-- Demonstration configuration for the concrete handshake scenarios:
coordinator key `[1]`, MWM 14, one-second handshake window. -/
def demoCfg : ProtocolConfig := ⟨[1], 14, 1⟩

/-- A handshake announcing a wrong coordinator key. -/
def demoBad : HandshakeMsg := ⟨80, 0, [2], 14, [1]⟩

/-- A handshake passing every check of `demoCfg`. -/
def demoGood : HandshakeMsg := ⟨80, 0, [1], 14, [1]⟩

/-- A version check that accepts everything (stand-in for the external
`messages_supported_version`). -/
def demoMsv : List Nat → Except Nat Unit := fun _ => .ok ()

/-- Witness for `validate_handshake_spec`: the success-iff component at a
fully concrete inbound connection. -/
theorem validate_handshake_spec_witness :
    (validate_handshake (messages_supported_version [1]) demoCfg .inbound ⟨9, 7⟩ 0 []
        demoGood).1.isOk ↔
      ((((0 : Nat) : Int) - (demoGood.timestamp : Int)).natAbs ≤
          demoCfg.handshake_window * 1000 ∧
        demoCfg.coordinator_public_key_bytes = demoGood.coordinator ∧
        demoCfg.mwm = demoGood.minimum_weight_magnitude ∧
        commonVersion [1] demoGood.supported_versions = true ∧
        (Origin.inbound = .outbound → SocketAddr.port ⟨9, 7⟩ = demoGood.port) ∧
        resolvedAddress .inbound ⟨9, 7⟩ demoGood ∉ ([] : List SocketAddr)) :=
  (validate_handshake_spec (messages_supported_version [1]) [1] demoCfg .inbound ⟨9, 7⟩ 0 []
    demoGood (messages_supported_version_isOk [1]) (by decide) (by decide) (by decide)).1

/-- C5: at most one active (handshaked) peer per resolved remote address,
in the sequential interleaving model: once connection A's handshake
validates — promoting A to `Done` and registering its resolved address
in the peer manager — a second connection B whose handshake resolves to
the same address and passes all earlier checks is rejected with
`AlreadyHandshaked`, set to the `Duplicate` state, and never registered:
the manager still holds exactly one entry for the address. -/
theorem at_most_one_peer_per_address
    (msv : List Nat → Except Nat Unit) (cfg : ProtocolConfig)
    (oA oB : Origin) (pA pB : SocketAddr) (nowA nowB : Nat)
    (mgr : List SocketAddr) (connA connB : ConnState) (hA hB : HandshakeMsg) (uB : Unit)
    (hokA : validate_handshake msv cfg oA pA nowA mgr hA =
      (.ok (resolvedAddress oA pA hA), false))
    (hnotin : resolvedAddress oA pA hA ∉ mgr)
    (ht : ¬ timestampDiffAbs nowB hB.timestamp > (cfg.handshake_window * 1000) % U64)
    (hc : cfg.coordinator_public_key_bytes = hB.coordinator)
    (hm : cfg.mwm = hB.minimum_weight_magnitude)
    (hv : msv hB.supported_versions = .ok uB)
    (hp : oB = .outbound → pB.port = hB.port)
    (hsame : resolvedAddress oB pB hB = resolvedAddress oA pA hA) :
    process_message msv cfg oA pA nowA mgr connA ⟨HANDSHAKE_ID, .ok hA⟩ =
      (mgr ++ [resolvedAddress oA pA hA], { connA with status := .done }) ∧
    (mgr ++ [resolvedAddress oA pA hA]).count (resolvedAddress oA pA hA) = 1 ∧
    validate_handshake msv cfg oB pB nowB (mgr ++ [resolvedAddress oA pA hA]) hB =
      (.error .AlreadyHandshaked, true) ∧
    process_message msv cfg oB pB nowB (mgr ++ [resolvedAddress oA pA hA]) connB
        ⟨HANDSHAKE_ID, .ok hB⟩ =
      (mgr ++ [resolvedAddress oA pA hA], { connB with status := .duplicate }) := by
  have hdup : validate_handshake msv cfg oB pB nowB (mgr ++ [resolvedAddress oA pA hA]) hB =
      (.error .AlreadyHandshaked, true) := by
    refine validate_handshake_dup msv cfg oB pB nowB _ hB uB ht hc hm hv hp ?_
    rw [hsame]
    simp
  refine ⟨?_, ?_, hdup, ?_⟩
  · simp [process_message, HANDSHAKE_ID, hokA]
  · rw [List.count_append, List.count_eq_zero_of_not_mem hnotin]
    simp
  · simp [process_message, HANDSHAKE_ID, hdup]

/-- Witness for `at_most_one_peer_per_address`: two inbound connections
from the same address, handshaking one after the other. -/
theorem at_most_one_peer_per_address_witness :
    process_message demoMsv demoCfg .inbound ⟨9, 7⟩ 0 [] ⟨.awaiting, 0⟩
        ⟨HANDSHAKE_ID, .ok demoGood⟩ =
      ([] ++ [resolvedAddress .inbound ⟨9, 7⟩ demoGood], ⟨.done, 0⟩) ∧
    ([] ++ [resolvedAddress .inbound ⟨9, 7⟩ demoGood]).count
        (resolvedAddress .inbound ⟨9, 7⟩ demoGood) = 1 ∧
    validate_handshake demoMsv demoCfg .inbound ⟨9, 7⟩ 0
        ([] ++ [resolvedAddress .inbound ⟨9, 7⟩ demoGood]) demoGood =
      (.error .AlreadyHandshaked, true) ∧
    process_message demoMsv demoCfg .inbound ⟨9, 7⟩ 0
        ([] ++ [resolvedAddress .inbound ⟨9, 7⟩ demoGood]) ⟨.awaiting, 0⟩
        ⟨HANDSHAKE_ID, .ok demoGood⟩ =
      ([] ++ [resolvedAddress .inbound ⟨9, 7⟩ demoGood], ⟨.duplicate, 0⟩) :=
  at_most_one_peer_per_address demoMsv demoCfg .inbound .inbound ⟨9, 7⟩ ⟨9, 7⟩ 0 0 []
    ⟨.awaiting, 0⟩ ⟨.awaiting, 0⟩ demoGood demoGood () (by decide) (by decide) (by decide)
    (by decide) (by decide) (by decide) (by decide) rfl

/-- C6 counterexample: a coordinator-mismatch handshake error does *not*
close the connection: the handshaker stays in `Awaiting`, keeps reading
frames, and a subsequent valid handshake on the very same connection
completes with `Done` — the connection recovers, contradicting "close
the offending connection; never recovered". -/
theorem handshake_error_connection_recovers :
    (validate_handshake demoMsv demoCfg .inbound ⟨9, 7⟩ 0 [] demoBad).1 =
      .error .CoordinatorMismatch ∧
    (process_message demoMsv demoCfg .inbound ⟨9, 7⟩ 0 [] ⟨.awaiting, 0⟩
      ⟨HANDSHAKE_ID, .ok demoBad⟩).2.status = .awaiting ∧
    (handshaker_run demoMsv demoCfg .inbound ⟨9, 7⟩ 0 [] ⟨.awaiting, 0⟩
      [⟨HANDSHAKE_ID, .ok demoBad⟩, ⟨HANDSHAKE_ID, .ok demoGood⟩]).2.status = .done := by
  refine ⟨by decide, by decide, by decide⟩

/-- C6 (amended): of the handshake validation errors, only the duplicate
error ends the handshaker's message loop (status `Duplicate`; the
explicit disconnect command is commented out in the source).  Every
other validation error — timestamp skew, coordinator mismatch, MWM
mismatch, version mismatch, port mismatch — changes nothing: the peer
manager and connection state are untouched, the connection stays open in
`Awaiting`, and the loop continues with the remaining messages, so a
later handshake may still complete. -/
theorem handshake_error_behavior
    (msv : List Nat → Except Nat Unit) (cfg : ProtocolConfig)
    (origin : Origin) (peerAddr : SocketAddr) (now : Nat)
    (mgr : List SocketAddr) (conn : ConnState) (hs : HandshakeMsg)
    (rest : List WireMessage) (hst : conn.status = .awaiting) :
    (∀ e, validate_handshake msv cfg origin peerAddr now mgr hs = (.error e, false) →
      process_message msv cfg origin peerAddr now mgr conn ⟨HANDSHAKE_ID, .ok hs⟩ =
        (mgr, conn) ∧
      handshaker_run msv cfg origin peerAddr now mgr conn
          (⟨HANDSHAKE_ID, .ok hs⟩ :: rest) =
        handshaker_run msv cfg origin peerAddr now mgr conn rest) ∧
    (validate_handshake msv cfg origin peerAddr now mgr hs = (.error .AlreadyHandshaked, true) →
      handshaker_run msv cfg origin peerAddr now mgr conn
          (⟨HANDSHAKE_ID, .ok hs⟩ :: rest) =
        (mgr, { conn with status := .duplicate })) := by
  constructor
  · intro e hv
    have hpm : process_message msv cfg origin peerAddr now mgr conn
        ⟨HANDSHAKE_ID, .ok hs⟩ = (mgr, conn) := by
      simp [process_message, HANDSHAKE_ID, hv]
    refine ⟨hpm, ?_⟩
    rw [handshaker_run, hpm, hst]
  · intro hv
    have hpm : process_message msv cfg origin peerAddr now mgr conn
        ⟨HANDSHAKE_ID, .ok hs⟩ = (mgr, { conn with status := .duplicate }) := by
      simp [process_message, HANDSHAKE_ID, hv]
    rw [handshaker_run, hpm]

/-- Witness for `handshake_error_behavior` at the coordinator-mismatch
scenario. -/
theorem handshake_error_behavior_witness :
    ((⟨.awaiting, 0⟩ : ConnState).status = .awaiting) ∧
    ((∀ e, validate_handshake demoMsv demoCfg .inbound ⟨9, 7⟩ 0 [] demoBad = (.error e, false) →
      process_message demoMsv demoCfg .inbound ⟨9, 7⟩ 0 [] ⟨.awaiting, 0⟩
          ⟨HANDSHAKE_ID, .ok demoBad⟩ =
        ([], ⟨.awaiting, 0⟩) ∧
      handshaker_run demoMsv demoCfg .inbound ⟨9, 7⟩ 0 [] ⟨.awaiting, 0⟩
          (⟨HANDSHAKE_ID, .ok demoBad⟩ :: [⟨HANDSHAKE_ID, .ok demoGood⟩]) =
        handshaker_run demoMsv demoCfg .inbound ⟨9, 7⟩ 0 [] ⟨.awaiting, 0⟩
          [⟨HANDSHAKE_ID, .ok demoGood⟩]) ∧
    (validate_handshake demoMsv demoCfg .inbound ⟨9, 7⟩ 0 [] demoBad =
        (.error .AlreadyHandshaked, true) →
      handshaker_run demoMsv demoCfg .inbound ⟨9, 7⟩ 0 [] ⟨.awaiting, 0⟩
          (⟨HANDSHAKE_ID, .ok demoBad⟩ :: [⟨HANDSHAKE_ID, .ok demoGood⟩]) =
        ([], ⟨.duplicate, 0⟩))) :=
  ⟨rfl, handshake_error_behavior demoMsv demoCfg .inbound ⟨9, 7⟩ 0 [] ⟨.awaiting, 0⟩
    demoBad [⟨HANDSHAKE_ID, .ok demoGood⟩] rfl⟩

/-- C10: until the handshake completes, every frame whose type is not
`Handshake` is ignored: the invalid-messages metric is incremented, the
frame is dropped (the peer manager is untouched), the connection stays
open in the `Awaiting` state, and a subsequent valid handshake on the
same connection still completes. -/
theorem nonhandshake_ignored
    (msv : List Nat → Except Nat Unit) (cfg : ProtocolConfig)
    (origin : Origin) (peerAddr : SocketAddr) (now : Nat)
    (mgr : List SocketAddr) (conn : ConnState) (m : WireMessage)
    (rest : List WireMessage)
    (hm : m.msgType ≠ HANDSHAKE_ID) (hst : conn.status = .awaiting) :
    process_message msv cfg origin peerAddr now mgr conn m =
      (mgr, { conn with invalidMessages := conn.invalidMessages + 1 }) ∧
    (process_message msv cfg origin peerAddr now mgr conn m).2.status = .awaiting ∧
    handshaker_run msv cfg origin peerAddr now mgr conn (m :: rest) =
      handshaker_run msv cfg origin peerAddr now mgr
        { conn with invalidMessages := conn.invalidMessages + 1 } rest ∧
    (∀ hs a, validate_handshake msv cfg origin peerAddr now mgr hs = (.ok a, false) →
      handshaker_run msv cfg origin peerAddr now mgr conn [m, ⟨HANDSHAKE_ID, .ok hs⟩] =
        (mgr ++ [a],
          { conn with invalidMessages := conn.invalidMessages + 1, status := .done })) := by
  obtain ⟨st, inv⟩ := conn
  have hst' : st = HandshakeStatus.awaiting := hst
  subst hst'
  have hpm : process_message msv cfg origin peerAddr now mgr ⟨.awaiting, inv⟩ m =
      (mgr, ⟨.awaiting, inv + 1⟩) := by
    simp [process_message, hm]
  refine ⟨hpm, by rw [hpm], ?_, ?_⟩
  · rw [handshaker_run, hpm]
  · intro hs a hv
    have hpm2 : process_message msv cfg origin peerAddr now mgr ⟨.awaiting, inv + 1⟩
        ⟨HANDSHAKE_ID, .ok hs⟩ = (mgr ++ [a], ⟨.done, inv + 1⟩) := by
      simp [process_message, HANDSHAKE_ID, hv]
    rw [handshaker_run, hpm]
    show handshaker_run msv cfg origin peerAddr now mgr ⟨.awaiting, inv + 1⟩
      [⟨HANDSHAKE_ID, .ok hs⟩] = _
    rw [handshaker_run, hpm2]

/-- Witness for `nonhandshake_ignored`: a heartbeat frame (type 0x06)
arriving before the handshake, followed by a valid handshake. -/
theorem nonhandshake_ignored_witness :
    ((6 : Nat) ≠ HANDSHAKE_ID ∧ (⟨.awaiting, 0⟩ : ConnState).status = .awaiting) ∧
    (process_message demoMsv demoCfg .inbound ⟨9, 7⟩ 0 [] ⟨.awaiting, 0⟩ ⟨6, .error ()⟩ =
      ([], ⟨.awaiting, 1⟩) ∧
    (process_message demoMsv demoCfg .inbound ⟨9, 7⟩ 0 [] ⟨.awaiting, 0⟩
      ⟨6, .error ()⟩).2.status = .awaiting ∧
    handshaker_run demoMsv demoCfg .inbound ⟨9, 7⟩ 0 [] ⟨.awaiting, 0⟩
        (⟨6, .error ()⟩ :: [⟨HANDSHAKE_ID, .ok demoGood⟩]) =
      handshaker_run demoMsv demoCfg .inbound ⟨9, 7⟩ 0 [] ⟨.awaiting, 1⟩
        [⟨HANDSHAKE_ID, .ok demoGood⟩] ∧
    (∀ hs a, validate_handshake demoMsv demoCfg .inbound ⟨9, 7⟩ 0 [] hs = (.ok a, false) →
      handshaker_run demoMsv demoCfg .inbound ⟨9, 7⟩ 0 [] ⟨.awaiting, 0⟩
          [⟨6, .error ()⟩, ⟨HANDSHAKE_ID, .ok hs⟩] =
        ([] ++ [a], ⟨.done, 1⟩))) :=
  ⟨⟨by decide, rfl⟩, nonhandshake_ignored demoMsv demoCfg .inbound ⟨9, 7⟩ 0 [] ⟨.awaiting, 0⟩
    ⟨6, .error ()⟩ [⟨HANDSHAKE_ID, .ok demoGood⟩] (by decide) rfl⟩

/-! ## Hasher worker

From `src/bee-protocol/src/worker/transaction/hasher.rs`.  The
`BatchStream` accumulates incoming transaction events into a batch of up
to `BATCH_SIZE`, flushing when the inner receiver would block or the
batch is full; `trigger_hashing` hashes a flushed batch with the batched
sponge when it holds at least `BATCH_SIZE_THRESHOLD` items and
one-by-one otherwise, and `send_hashes` forwards the events zipped with
their hashes to the processor.  The inner receiver is modelled as a
script: the list of outcomes (`pending`, an item, or end-of-stream) its
successive polls produce. -/

/-- `BATCH_SIZE_THRESHOLD` from `hasher.rs` line 43. -/
def BATCH_SIZE_THRESHOLD : Nat := 3

/-- Modelled from the spec: `bee_crypto::ternary::sponge::BATCH_SIZE` is
not under `src/`; the spec calls it implementation-defined, of order 64,
and the bee-crypto batched CurlP hasher uses 64 (the
`assert!(BATCH_SIZE_THRESHOLD <= BATCH_SIZE)` of `BatchStream::new`
holds). -/
def BATCH_SIZE : Nat := 64

/-- A `HasherWorkerEvent`: the origin endpoint and the compressed
transaction bytes of the message. -/
structure HasherEvent where
  fromPeer : Nat
  bytes : List Nat
  deriving Repr, DecidableEq

/-- One outcome of polling the inner receiver stream. -/
inductive PollIn where
  | pending
  | item (e : HasherEvent)
  | ended
  deriving Repr, DecidableEq

/-- The outcome of one `BatchStream::poll_next` call.  `starved` is a
model artefact: the scripted receiver behaviour ran out (a real poll
always resolves); `panicked` is the `unwrap` of a failed ternary
conversion. -/
inductive PollOut where
  | pendingOut
  | ready (n : Nat)
  | readyNone
  | starved
  | panicked
  deriving Repr, DecidableEq

/-- The external dependencies of the hasher pipeline.  `cacheIns` models
`HashCache::insert` over an abstract cache type `C` (not under `src/`;
per the spec a bounded LRU whose `insert` reports whether the bytes were
not seen before — the claims hold for every cache behaviour); `decode`
models `uncompress_transaction_bytes` followed by
`Trits::<T5B1>::try_from_raw(..).to_buf()` (not under `src/`), with
`none` a failed conversion — which the source `unwrap`s; `singleHash` is
the CurlP-81 hash of one transaction.  `BatchHasher` (bee-crypto, not
under `src/`) is Modelled from the spec: batched and unbatched hashing
"both produce identical hashes", namely `singleHash` on each item. -/
structure HasherEnv (C : Type) where
  cacheIns : C → List Nat → Bool × C
  decode : List Nat → Option (List Int)
  singleHash : List Int → List Int

/-- The mutable state of the `BatchStream`: the hash cache, the trit
buffers added to the `BatchHasher`, and the pending `events` vector. -/
structure BatchState (C : Type) where
  cache : C
  items : List (List Int)
  events : List HasherEvent
  deriving DecidableEq

/-- `BatchStream::poll_next` (`hasher.rs` lines 148–212) against a
scripted receiver: loop — if the batch already holds `BATCH_SIZE` items,
yield `BATCH_SIZE`; otherwise poll the receiver: on pending, yield the
accumulated batch size unless the batch is empty (then return pending);
on end-of-stream, end the stream without hashing the pending batch; on
an item, skip it when the cache has seen its bytes, otherwise decode
(`unwrap` — a failure panics) and add it, yielding `BATCH_SIZE` when
this fills the batch.  Returns the poll outcome, the state after the
call, and the unconsumed rest of the script. -/
def pollLoop {C : Type} (env : HasherEnv C) (ins : List PollIn) (st : BatchState C) :
    PollOut × BatchState C × List PollIn :=
  if st.items.length = BATCH_SIZE then (.ready BATCH_SIZE, st, ins)
  else
    match ins with
    | [] => (.starved, st, [])
    | .pending :: rest =>
      if st.items.length = 0 then (.pendingOut, st, rest)
      else (.ready st.items.length, st, rest)
    | .ended :: rest => (.readyNone, st, rest)
    | .item e :: rest =>
      let fc := env.cacheIns st.cache e.bytes
      if fc.1 = false then pollLoop env rest { st with cache := fc.2 }
      else
        match env.decode e.bytes with
        | none => (.panicked, { st with cache := fc.2 }, rest)
        | some tr =>
          if st.items.length = BATCH_SIZE - 1 then
            (.ready BATCH_SIZE,
              { cache := fc.2, items := st.items ++ [tr], events := st.events ++ [e] }, rest)
          else
            pollLoop env rest
              { cache := fc.2, items := st.items ++ [tr], events := st.events ++ [e] }

/-- `BatchHasher::hash_unbatched`; Modelled from the spec: each added
buffer is hashed individually. -/
def hash_unbatched {C : Type} (env : HasherEnv C) (items : List (List Int)) :
    List (List Int) :=
  items.map env.singleHash

/-- `BatchHasher::hash_batched`; Modelled from the spec: the batched
binary-coded-ternary sponge "produces identical hashes" to the
one-by-one hasher. -/
def hash_batched {C : Type} (env : HasherEnv C) (items : List (List Int)) :
    List (List Int) :=
  items.map env.singleHash

/-- `send_hashes` (`hasher.rs` lines 69–90): drain the events, zip them
with the hashes, and forward one `ProcessorWorkerEvent` per pair. -/
def send_hashes (events : List HasherEvent) (hashes : List (List Int)) :
    List (HasherEvent × List Int) :=
  events.zip hashes

/-- `trigger_hashing` (`hasher.rs` lines 54–67): below
`BATCH_SIZE_THRESHOLD` items use the regular hasher, otherwise the
batched one. -/
def trigger_hashing {C : Type} (env : HasherEnv C) (batch_size : Nat)
    (st : BatchState C) : List (HasherEvent × List Int) :=
  if batch_size < BATCH_SIZE_THRESHOLD then send_hashes st.events (hash_unbatched env st.items)
  else send_hashes st.events (hash_batched env st.items)

theorem trigger_hashing_eq {C : Type} (env : HasherEnv C) (batch_size : Nat)
    (st : BatchState C) :
    trigger_hashing env batch_size st = st.events.zip (st.items.map env.singleHash) := by
  unfold trigger_hashing hash_unbatched hash_batched send_hashes
  split <;> rfl

theorem pollLoop_rest_length {C : Type} (env : HasherEnv C) (ins : List PollIn) :
    ∀ st : BatchState C, st.items.length ≠ BATCH_SIZE →
      (pollLoop env ins st).1 = .starved ∨ (pollLoop env ins st).2.2.length < ins.length := by
  induction ins with
  | nil =>
    intro st h
    left
    rw [pollLoop.eq_def, if_neg h]
  | cons x rest ih =>
    intro st h
    rw [pollLoop.eq_def, if_neg h]
    cases x with
    | pending =>
      by_cases h0 : st.items.length = 0 <;> simp [h0]
    | ended => simp
    | item e =>
      by_cases hfc : (env.cacheIns st.cache e.bytes).1 = false
      · simp only [hfc, if_true]
        rcases ih ⟨(env.cacheIns st.cache e.bytes).2, st.items, st.events⟩ h with h1 | h1
        · left
          exact h1
        · right
          simpa using Nat.lt_trans h1 (Nat.lt_succ_self _)
      · simp only [hfc, if_false, Bool.false_eq_true, ite_false]
        cases hd : env.decode e.bytes with
        | none => simp
        | some tr =>
          by_cases hb : st.items.length = BATCH_SIZE - 1
          · simp [hb]
          · simp only [hb, ite_false]
            rcases ih ⟨(env.cacheIns st.cache e.bytes).2, st.items ++ [tr],
                st.events ++ [e]⟩ (by simp; omega) with h1 | h1
            · left
              exact h1
            · right
              simpa using Nat.lt_trans h1 (Nat.lt_succ_self _)

/-- The `HasherWorker` loop (`hasher.rs` lines 105–115): repeatedly await
the next batch from the `BatchStream` and trigger the hashing; each
flush drains the hasher's buffers and the events vector, so the stream
state after a batch is an empty batch with the surviving cache.  Returns
the full sequence of `(event, hash)` pairs forwarded to the processor
worker. -/
def hasherRun {C : Type} (env : HasherEnv C) (ins : List PollIn) (c : C) :
    List (HasherEvent × List Int) :=
  match h : pollLoop env ins ⟨c, [], []⟩ with
  | (.ready n, st', rest) => trigger_hashing env n st' ++ hasherRun env rest st'.cache
  | (.pendingOut, st', rest) => hasherRun env rest st'.cache
  | (.readyNone, _, _) => []
  | (.starved, _, _) => []
  | (.panicked, _, _) => []
termination_by ins.length
decreasing_by
  · rcases pollLoop_rest_length env ins ⟨c, [], []⟩ (by simp [BATCH_SIZE]) with h1 | h1
    · rw [h] at h1
      exact absurd h1 (by simp)
    · rw [h] at h1
      simpa using h1
  · rcases pollLoop_rest_length env ins ⟨c, [], []⟩ (by simp [BATCH_SIZE]) with h1 | h1
    · rw [h] at h1
      exact absurd h1 (by simp)
    · rw [h] at h1
      simpa using h1

theorem hasherRun_ready {C : Type} (env : HasherEnv C) (ins : List PollIn) (c : C)
    (n : Nat) (st' : BatchState C) (rest : List PollIn)
    (h : pollLoop env ins ⟨c, [], []⟩ = (.ready n, st', rest)) :
    hasherRun env ins c = trigger_hashing env n st' ++ hasherRun env rest st'.cache := by
  rw [hasherRun.eq_def]
  split <;> rename_i heq <;> rw [h] at heq
  · obtain ⟨h1, h2, h3⟩ : n = _ ∧ st' = _ ∧ rest = _ := by simpa using heq
    subst h1
    subst h2
    subst h3
    rfl
  · simp at heq
  · simp at heq
  · simp at heq
  · simp at heq

theorem hasherRun_pendingOut {C : Type} (env : HasherEnv C) (ins : List PollIn) (c : C)
    (st' : BatchState C) (rest : List PollIn)
    (h : pollLoop env ins ⟨c, [], []⟩ = (.pendingOut, st', rest)) :
    hasherRun env ins c = hasherRun env rest st'.cache := by
  rw [hasherRun.eq_def]
  split <;> rename_i heq <;> rw [h] at heq
  · simp at heq
  · obtain ⟨h2, h3⟩ : st' = _ ∧ rest = _ := by simpa using heq
    subst h2
    subst h3
    rfl
  · simp at heq
  · simp at heq
  · simp at heq

theorem hasherRun_readyNone {C : Type} (env : HasherEnv C) (ins : List PollIn) (c : C)
    (st' : BatchState C) (rest : List PollIn)
    (h : pollLoop env ins ⟨c, [], []⟩ = (.readyNone, st', rest)) :
    hasherRun env ins c = [] := by
  rw [hasherRun.eq_def]
  split <;> rename_i heq <;> rw [h] at heq
  all_goals simp at heq

theorem hasherRun_starved {C : Type} (env : HasherEnv C) (ins : List PollIn) (c : C)
    (st' : BatchState C) (rest : List PollIn)
    (h : pollLoop env ins ⟨c, [], []⟩ = (.starved, st', rest)) :
    hasherRun env ins c = [] := by
  rw [hasherRun.eq_def]
  split <;> rename_i heq <;> rw [h] at heq
  all_goals simp at heq

theorem hasherRun_panicked {C : Type} (env : HasherEnv C) (ins : List PollIn) (c : C)
    (st' : BatchState C) (rest : List PollIn)
    (h : pollLoop env ins ⟨c, [], []⟩ = (.panicked, st', rest)) :
    hasherRun env ins c = [] := by
  rw [hasherRun.eq_def]
  split <;> rename_i heq <;> rw [h] at heq
  all_goals simp at heq

theorem hasherRun_nil {C : Type} (env : HasherEnv C) (c : C) :
    hasherRun env [] c = [] := by
  refine hasherRun_starved env [] c ⟨c, [], []⟩ [] ?_
  rw [pollLoop.eq_def]
  simp [BATCH_SIZE]

/-- A concretely computable hasher environment for the witnesses: a
trivial always-fresh cache, decoding that fails exactly on the byte list
`[99]`, and the identity hash. -/
def demoEnv : HasherEnv Unit where
  cacheIns := fun c _ => (true, c)
  decode := fun bs => if bs = [99] then none else some (bs.map (fun b => (b : Int)))
  singleHash := fun t => t

/-- C8: the batch stream never yields an empty batch: from any state
whose accumulated batch is within capacity, every yielded batch size `n`
satisfies `1 ≤ n ≤ BATCH_SIZE` and is exactly the size of the batch
handed over; `BATCH_SIZE` is yielded exactly when that batch is full; a
partial batch (`n < BATCH_SIZE`) is yielded only because the input
stream reported pending at that point; and the poll returns pending —
emitting nothing — only when the accumulated batch is empty. -/
theorem batch_stream_never_empty {C : Type} (env : HasherEnv C) (ins : List PollIn) :
    ∀ st : BatchState C, st.items.length ≤ BATCH_SIZE →
      (∀ n st' rest, pollLoop env ins st = (.ready n, st', rest) →
        1 ≤ n ∧ n ≤ BATCH_SIZE ∧ n = st'.items.length ∧
        (n = BATCH_SIZE ↔ st'.items.length = BATCH_SIZE) ∧
        (n < BATCH_SIZE → ∃ pre, ins = pre ++ .pending :: rest)) ∧
      (∀ st' rest, pollLoop env ins st = (.pendingOut, st', rest) →
        st'.items.length = 0) := by
  have hBS : BATCH_SIZE = 64 := rfl
  induction ins with
  | nil =>
    intro st hle
    by_cases hfull : st.items.length = BATCH_SIZE
    · refine ⟨?_, ?_⟩
      · intro n st' rest hres
        rw [pollLoop.eq_def, if_pos hfull] at hres
        obtain ⟨h1, h2, h3⟩ : BATCH_SIZE = n ∧ st = st' ∧ ([] : List PollIn) = rest := by
          simpa using hres
        subst h1
        subst h2
        refine ⟨by omega, le_rfl, hfull.symm, by omega, by omega⟩
      · intro st' rest hres
        rw [pollLoop.eq_def, if_pos hfull] at hres
        simp at hres
    · refine ⟨?_, ?_⟩
      · intro n st' rest hres
        rw [pollLoop.eq_def, if_neg hfull] at hres
        simp at hres
      · intro st' rest hres
        rw [pollLoop.eq_def, if_neg hfull] at hres
        simp at hres
  | cons x rest₀ ih =>
    intro st hle
    by_cases hfull : st.items.length = BATCH_SIZE
    · refine ⟨?_, ?_⟩
      · intro n st' rest hres
        rw [pollLoop.eq_def, if_pos hfull] at hres
        obtain ⟨h1, h2, h3⟩ : BATCH_SIZE = n ∧ st = st' ∧ x :: rest₀ = rest := by
          simpa using hres
        subst h1
        subst h2
        refine ⟨by omega, le_rfl, hfull.symm, by omega, by omega⟩
      · intro st' rest hres
        rw [pollLoop.eq_def, if_pos hfull] at hres
        simp at hres
    · cases x with
      | pending =>
        by_cases h0 : st.items.length = 0
        · refine ⟨?_, ?_⟩
          · intro n st' rest hres
            rw [pollLoop.eq_def, if_neg hfull] at hres
            simp only [h0, if_true] at hres
            simp at hres
          · intro st' rest hres
            rw [pollLoop.eq_def, if_neg hfull] at hres
            simp only [h0, if_true] at hres
            obtain ⟨h2, h3⟩ : st = st' ∧ rest₀ = rest := by simpa using hres
            subst h2
            exact h0
        · refine ⟨?_, ?_⟩
          · intro n st' rest hres
            rw [pollLoop.eq_def, if_neg hfull] at hres
            simp only [h0, if_false, ite_false] at hres
            obtain ⟨h1, h2, h3⟩ : st.items.length = n ∧ st = st' ∧ rest₀ = rest := by
              simpa using hres
            subst h1
            subst h2
            subst h3
            refine ⟨by omega, by omega, rfl, by constructor <;> omega, ?_⟩
            intro _
            exact ⟨[], rfl⟩
          · intro st' rest hres
            rw [pollLoop.eq_def, if_neg hfull] at hres
            simp only [h0, if_false, ite_false] at hres
            simp at hres
      | ended =>
        refine ⟨?_, ?_⟩
        · intro n st' rest hres
          rw [pollLoop.eq_def, if_neg hfull] at hres
          simp at hres
        · intro st' rest hres
          rw [pollLoop.eq_def, if_neg hfull] at hres
          simp at hres
      | item e =>
        by_cases hfc : (env.cacheIns st.cache e.bytes).1 = false
        · have hrec : pollLoop env (PollIn.item e :: rest₀) st =
              pollLoop env rest₀ ⟨(env.cacheIns st.cache e.bytes).2, st.items, st.events⟩ := by
            rw [pollLoop.eq_def, if_neg hfull]
            simp [hfc]
          rw [hrec]
          obtain ⟨ihr, ihp⟩ := ih ⟨(env.cacheIns st.cache e.bytes).2, st.items, st.events⟩ hle
          refine ⟨?_, ihp⟩
          intro n st' rest hres
          obtain ⟨g1, g2, g3, g4, g5⟩ := ihr n st' rest hres
          refine ⟨g1, g2, g3, g4, ?_⟩
          intro hlt
          obtain ⟨pre, hpre⟩ := g5 hlt
          exact ⟨.item e :: pre, by simp [hpre]⟩
        · cases hd : env.decode e.bytes with
          | none =>
            refine ⟨?_, ?_⟩
            · intro n st' rest hres
              rw [pollLoop.eq_def, if_neg hfull] at hres
              simp [hfc, hd] at hres
            · intro st' rest hres
              rw [pollLoop.eq_def, if_neg hfull] at hres
              simp [hfc, hd] at hres
          | some tr =>
            by_cases hb : st.items.length = BATCH_SIZE - 1
            · refine ⟨?_, ?_⟩
              · intro n st' rest hres
                rw [pollLoop.eq_def, if_neg hfull] at hres
                simp only [hfc, hd, hb, Bool.false_eq_true, if_false, ite_false,
                  if_true, ite_true] at hres
                obtain ⟨h1, h2, h3⟩ : BATCH_SIZE = n ∧
                    (⟨(env.cacheIns st.cache e.bytes).2, st.items ++ [tr],
                      st.events ++ [e]⟩ : BatchState C) = st' ∧ rest₀ = rest := by
                  simpa using hres
                subst h1
                subst h2
                refine ⟨by omega, le_rfl, ?_, ?_, by omega⟩
                · simp
                  omega
                · simp
                  omega
              · intro st' rest hres
                rw [pollLoop.eq_def, if_neg hfull] at hres
                simp [hfc, hd, hb] at hres
            · have hrec : pollLoop env (PollIn.item e :: rest₀) st =
                  pollLoop env rest₀ ⟨(env.cacheIns st.cache e.bytes).2,
                    st.items ++ [tr], st.events ++ [e]⟩ := by
                rw [pollLoop.eq_def, if_neg hfull]
                simp [hfc, hd, hb]
              rw [hrec]
              obtain ⟨ihr, ihp⟩ := ih ⟨(env.cacheIns st.cache e.bytes).2,
                st.items ++ [tr], st.events ++ [e]⟩ (by simp; omega)
              refine ⟨?_, ihp⟩
              intro n st' rest hres
              obtain ⟨g1, g2, g3, g4, g5⟩ := ihr n st' rest hres
              refine ⟨g1, g2, g3, g4, ?_⟩
              intro hlt
              obtain ⟨pre, hpre⟩ := g5 hlt
              exact ⟨.item e :: pre, by simp [hpre]⟩

/-- Witness for `batch_stream_never_empty` at a concrete environment,
script and empty starting batch. -/
theorem batch_stream_never_empty_witness :
    (⟨(), [], []⟩ : BatchState Unit).items.length ≤ BATCH_SIZE ∧
    ((∀ n st' rest,
        pollLoop demoEnv [.item ⟨1, [5]⟩, .pending] ⟨(), [], []⟩ = (.ready n, st', rest) →
        1 ≤ n ∧ n ≤ BATCH_SIZE ∧ n = st'.items.length ∧
        (n = BATCH_SIZE ↔ st'.items.length = BATCH_SIZE) ∧
        (n < BATCH_SIZE →
          ∃ pre, [PollIn.item ⟨1, [5]⟩, PollIn.pending] = pre ++ .pending :: rest)) ∧
      (∀ st' rest,
        pollLoop demoEnv [.item ⟨1, [5]⟩, .pending] ⟨(), [], []⟩ = (.pendingOut, st', rest) →
        st'.items.length = 0)) :=
  ⟨by decide, batch_stream_never_empty demoEnv [.item ⟨1, [5]⟩, .pending] ⟨(), [], []⟩
    (by decide)⟩

/-- What the worker loop does with the outcome of one poll: hash and
forward a flushed batch and continue, just continue on pending, stop on
end-of-stream, script exhaustion, or a panic. -/
def flushCont {C : Type} (env : HasherEnv C)
    (r : PollOut × BatchState C × List PollIn) : List (HasherEvent × List Int) :=
  match r with
  | (.ready n, st', rest) => trigger_hashing env n st' ++ hasherRun env rest st'.cache
  | (.pendingOut, st', rest) => hasherRun env rest st'.cache
  | (.readyNone, _, _) => []
  | (.starved, _, _) => []
  | (.panicked, _, _) => []

@[simp] theorem flushCont_ready {C : Type} (env : HasherEnv C) (n : Nat)
    (st' : BatchState C) (rest : List PollIn) :
    flushCont env (.ready n, st', rest) =
      trigger_hashing env n st' ++ hasherRun env rest st'.cache := rfl

@[simp] theorem flushCont_pendingOut {C : Type} (env : HasherEnv C)
    (st' : BatchState C) (rest : List PollIn) :
    flushCont env (.pendingOut, st', rest) = hasherRun env rest st'.cache := rfl

@[simp] theorem flushCont_readyNone {C : Type} (env : HasherEnv C)
    (st' : BatchState C) (rest : List PollIn) :
    flushCont env (.readyNone, st', rest) = [] := rfl

@[simp] theorem flushCont_starved {C : Type} (env : HasherEnv C)
    (st' : BatchState C) (rest : List PollIn) :
    flushCont env (.starved, st', rest) = [] := rfl

@[simp] theorem flushCont_panicked {C : Type} (env : HasherEnv C)
    (st' : BatchState C) (rest : List PollIn) :
    flushCont env (.panicked, st', rest) = [] := rfl

theorem hasherRun_eq {C : Type} (env : HasherEnv C) (ins : List PollIn) (c : C) :
    hasherRun env ins c = flushCont env (pollLoop env ins ⟨c, [], []⟩) := by
  rcases hp : pollLoop env ins ⟨c, [], []⟩ with ⟨out, st', rest⟩
  cases out with
  | ready n => rw [hasherRun_ready env ins c n st' rest hp, flushCont_ready]
  | pendingOut => rw [hasherRun_pendingOut env ins c st' rest hp, flushCont_pendingOut]
  | readyNone => rw [hasherRun_readyNone env ins c st' rest hp, flushCont_readyNone]
  | starved => rw [hasherRun_starved env ins c st' rest hp, flushCont_starved]
  | panicked => rw [hasherRun_panicked env ins c st' rest hp, flushCont_panicked]

/-- The events carried by an input script, in order. -/
def itemsOf : List PollIn → List HasherEvent
  | [] => []
  | .item e :: rest => e :: itemsOf rest
  | .pending :: rest => itemsOf rest
  | .ended :: rest => itemsOf rest

/-- The reference single-item hasher of the spec: consume the events one
at a time — consult the cache, decode, hash individually, forward. -/
def referenceSingle {C : Type} (env : HasherEnv C) :
    List HasherEvent → C → List (HasherEvent × List Int)
  | [], _ => []
  | e :: rest, c =>
    let fc := env.cacheIns c e.bytes
    if fc.1 = false then referenceSingle env rest fc.2
    else
      match env.decode e.bytes with
      | none => []
      | some tr => (e, env.singleHash tr) :: referenceSingle env rest fc.2

theorem pollLoop_flush_nil {C : Type} (env : HasherEnv C) (c : C) (ts : List (List Int))
    (es : List HasherEvent) (hts : ts.length = es.length) (hlt : es.length < BATCH_SIZE) :
    flushCont env (pollLoop env [PollIn.pending] ⟨c, ts, es⟩) =
      es.zip (ts.map env.singleHash) := by
  by_cases h0 : ts.length = 0
  · have hes : es = [] := List.length_eq_zero.mp (by omega)
    have hts0 : ts = [] := List.length_eq_zero.mp h0
    subst hes
    subst hts0
    have hp : pollLoop env [PollIn.pending] ⟨c, [], []⟩ = (.pendingOut, ⟨c, [], []⟩, []) := by
      rw [pollLoop.eq_def]
      simp [BATCH_SIZE]
    rw [hp, flushCont_pendingOut, hasherRun_nil]
    simp
  · have hne : ts.length ≠ BATCH_SIZE := by omega
    have hp : pollLoop env [PollIn.pending] ⟨c, ts, es⟩ =
        (.ready ts.length, ⟨c, ts, es⟩, []) := by
      rw [pollLoop.eq_def]
      simp [hne, h0]
    rw [hp, flushCont_ready, trigger_hashing_eq, hasherRun_nil]
    simp

theorem pollLoop_flush {C : Type} (env : HasherEnv C) :
    ∀ (N : Nat) (ins : List PollIn), ins.length ≤ N →
      (∀ e, PollIn.item e ∈ ins → (env.decode e.bytes).isSome) →
      PollIn.ended ∉ ins →
      ∀ (c : C) (ts : List (List Int)) (es : List HasherEvent),
        ts.length = es.length → es.length < BATCH_SIZE →
        flushCont env (pollLoop env (ins ++ [PollIn.pending]) ⟨c, ts, es⟩) =
          es.zip (ts.map env.singleHash) ++ referenceSingle env (itemsOf ins) c := by
  intro N
  induction N with
  | zero =>
    intro ins hlen hvalid hnoend c ts es hts hlt
    have hnil : ins = [] := List.length_eq_zero.mp (by omega)
    subst hnil
    simpa [itemsOf, referenceSingle] using pollLoop_flush_nil env c ts es hts hlt
  | succ N ihN =>
    intro ins hlen hvalid hnoend c ts es hts hlt
    cases ins with
    | nil => simpa [itemsOf, referenceSingle] using pollLoop_flush_nil env c ts es hts hlt
    | cons x ins' =>
      have hlen' : ins'.length ≤ N := by
        simp only [List.length_cons] at hlen
        omega
      have hvalid' : ∀ e, PollIn.item e ∈ ins' → (env.decode e.bytes).isSome :=
        fun e he => hvalid e (by simp [he])
      have hnoend' : PollIn.ended ∉ ins' := fun hc => hnoend (by simp [hc])
      have hne : ts.length ≠ BATCH_SIZE := by omega
      cases x with
      | ended => exact absurd (List.mem_cons_self _ _) hnoend
      | pending =>
        by_cases h0 : ts.length = 0
        · have hes : es = [] := List.length_eq_zero.mp (by omega)
          have hts0 : ts = [] := List.length_eq_zero.mp h0
          subst hes
          subst hts0
          have hp : pollLoop env ((PollIn.pending :: ins') ++ [PollIn.pending]) ⟨c, [], []⟩ =
              (.pendingOut, ⟨c, [], []⟩, ins' ++ [PollIn.pending]) := by
            rw [pollLoop.eq_def]
            simp [BATCH_SIZE]
          rw [hp, flushCont_pendingOut, hasherRun_eq]
          simpa [itemsOf] using
            ihN ins' hlen' hvalid' hnoend' c [] [] rfl (by simp [BATCH_SIZE])
        · have hp : pollLoop env ((PollIn.pending :: ins') ++ [PollIn.pending]) ⟨c, ts, es⟩ =
              (.ready ts.length, ⟨c, ts, es⟩, ins' ++ [PollIn.pending]) := by
            rw [pollLoop.eq_def]
            simp [hne, h0]
          rw [hp, flushCont_ready, trigger_hashing_eq, hasherRun_eq]
          rw [ihN ins' hlen' hvalid' hnoend' _ [] [] rfl (by simp [BATCH_SIZE])]
          simp [itemsOf]
      | item e =>
        have hvE : (env.decode e.bytes).isSome := hvalid e (by simp)
        cases hfc : (env.cacheIns c e.bytes).1 with
        | false =>
          have hstep : pollLoop env ((PollIn.item e :: ins') ++ [PollIn.pending]) ⟨c, ts, es⟩ =
              pollLoop env (ins' ++ [PollIn.pending])
                ⟨(env.cacheIns c e.bytes).2, ts, es⟩ := by
            rw [pollLoop.eq_def]
            simp [hne, hfc]
          rw [hstep, ihN ins' hlen' hvalid' hnoend' _ ts es hts hlt]
          simp [itemsOf, referenceSingle, hfc]
        | true =>
          obtain ⟨tr, htr⟩ := Option.isSome_iff_exists.mp hvE
          by_cases hb : ts.length = BATCH_SIZE - 1
          · have hp : pollLoop env ((PollIn.item e :: ins') ++ [PollIn.pending]) ⟨c, ts, es⟩ =
                (.ready BATCH_SIZE,
                  ⟨(env.cacheIns c e.bytes).2, ts ++ [tr], es ++ [e]⟩,
                  ins' ++ [PollIn.pending]) := by
              rw [pollLoop.eq_def]
              simp [hne, hfc, htr, hb]
              decide
            rw [hp, flushCont_ready, trigger_hashing_eq, hasherRun_eq]
            rw [ihN ins' hlen' hvalid' hnoend' _ [] [] rfl (by simp [BATCH_SIZE])]
            rw [List.map_append, List.zip_append (by simp [hts])]
            simp [itemsOf, referenceSingle, hfc, htr]
          · have hstep : pollLoop env ((PollIn.item e :: ins') ++ [PollIn.pending]) ⟨c, ts, es⟩ =
                pollLoop env (ins' ++ [PollIn.pending])
                  ⟨(env.cacheIns c e.bytes).2, ts ++ [tr], es ++ [e]⟩ := by
              rw [pollLoop.eq_def]
              simp [hne, hfc, htr, hb]
            rw [hstep,
              ihN ins' hlen' hvalid' hnoend' _ (ts ++ [tr]) (es ++ [e]) (by simp [hts])
                (by simp only [List.length_append, List.length_cons, List.length_nil]; omega)]
            rw [List.map_append, List.zip_append (by simp [hts])]
            simp [itemsOf, referenceSingle, hfc, htr]

/-- C3: the hasher pipeline's forwarded `(event, hash)` pairs over any
receiver behaviour equal the reference single-item hasher applied to the
event sequence alone, for every cache behaviour and any ingest of
well-encoded transactions: the hash forwarded per transaction is
`singleHash` regardless of whether its batch went through the batched or
the unbatched sponge (Modelled from the spec: both produce identical
hashes), and the output is independent of how the stream is split into
batches — the right-hand side does not mention the pending boundaries
that determine the batching. -/
theorem hasher_batching_independent {C : Type} (env : HasherEnv C) (ins : List PollIn)
    (c : C)
    (hvalid : ∀ e, PollIn.item e ∈ ins → (env.decode e.bytes).isSome)
    (hnoend : PollIn.ended ∉ ins) :
    hasherRun env (ins ++ [PollIn.pending]) c = referenceSingle env (itemsOf ins) c := by
  rw [hasherRun_eq]
  simpa using pollLoop_flush env ins.length ins le_rfl hvalid hnoend c [] [] rfl
    (by simp [BATCH_SIZE])

/-- Witness for `hasher_batching_independent`: two valid items. -/
theorem hasher_batching_independent_witness :
    hasherRun demoEnv ([.item ⟨1, [5]⟩, .item ⟨2, [7]⟩] ++ [PollIn.pending]) () =
      referenceSingle demoEnv (itemsOf [.item ⟨1, [5]⟩, .item ⟨2, [7]⟩]) () :=
  hasher_batching_independent demoEnv [.item ⟨1, [5]⟩, .item ⟨2, [7]⟩] ()
    (by
      intro e he
      simp only [List.mem_cons, List.not_mem_nil, or_false] at he
      rcases he with he | he
      · injection he with he
        subst he
        decide
      · injection he with he
        subst he
        decide)
    (by decide)

/-- C9 counterexample: with a valid item followed by an
invalid-encoding item inside the same batch, the hasher worker panics
on the `unwrap` of the failed conversion: nothing is forwarded — the
valid item is lost too, so the batch does not proceed without the
failed item (and the hasher has no invalid-transaction metric to
increment).  By contrast, without the invalid item the valid one is
forwarded. -/
theorem invalid_encoding_kills_batch :
    pollLoop demoEnv [.item ⟨1, [5]⟩, .item ⟨2, [99]⟩, .pending] ⟨(), [], []⟩ =
      (.panicked, ⟨(), [[5]], [⟨1, [5]⟩]⟩, [.pending]) ∧
    hasherRun demoEnv [.item ⟨1, [5]⟩, .item ⟨2, [99]⟩, .pending] () = [] ∧
    hasherRun demoEnv [.item ⟨1, [5]⟩, .pending] () = [(⟨1, [5]⟩, [5])] := by
  have hp : pollLoop demoEnv [.item ⟨1, [5]⟩, .item ⟨2, [99]⟩, .pending] ⟨(), [], []⟩ =
      (.panicked, ⟨(), [[5]], [⟨1, [5]⟩]⟩, [.pending]) := by
    decide
  refine ⟨hp, hasherRun_panicked demoEnv _ () _ _ hp, ?_⟩
  have hp2 : pollLoop demoEnv [.item ⟨1, [5]⟩, .pending] ⟨(), [], []⟩ =
      (.ready 1, ⟨(), [[5]], [⟨1, [5]⟩]⟩, []) := by
    decide
  rw [hasherRun_ready demoEnv _ () _ _ _ hp2, trigger_hashing_eq, hasherRun_nil]
  decide

/-- C9 (amended): an invalid ternary encoding is not handled item-wise:
the conversion result is `unwrap`ped, so the first fresh undecodable
item panics the hasher worker — the whole accumulated batch (valid
items included) is dropped, nothing is forwarded from that poll on, and
no metric is incremented (the hasher increments none on this path). -/
theorem invalid_encoding_panics {C : Type} (env : HasherEnv C) (e : HasherEvent)
    (rest : List PollIn) (st : BatchState C) (c : C)
    (hfull : st.items.length ≠ BATCH_SIZE)
    (hfreshSt : (env.cacheIns st.cache e.bytes).1 = true)
    (hfreshC : (env.cacheIns c e.bytes).1 = true)
    (hbad : env.decode e.bytes = none) :
    pollLoop env (.item e :: rest) st =
      (.panicked, { st with cache := (env.cacheIns st.cache e.bytes).2 }, rest) ∧
    hasherRun env (.item e :: rest) c = [] := by
  constructor
  · rw [pollLoop.eq_def]
    simp [hfull, hfreshSt, hbad]
  · refine hasherRun_panicked env _ c ⟨(env.cacheIns c e.bytes).2, [], []⟩ rest ?_
    rw [pollLoop.eq_def]
    simp [BATCH_SIZE, hfreshC, hbad]

/-- Witness for `invalid_encoding_panics` at the concrete environment. -/
theorem invalid_encoding_panics_witness :
    ((⟨(), [[5]], [⟨1, [5]⟩]⟩ : BatchState Unit).items.length ≠ BATCH_SIZE ∧
      (demoEnv.cacheIns () [99]).1 = true ∧
      demoEnv.decode [99] = none) ∧
    (pollLoop demoEnv (.item ⟨2, [99]⟩ :: [PollIn.pending]) ⟨(), [[5]], [⟨1, [5]⟩]⟩ =
      (.panicked, ⟨(), [[5]], [⟨1, [5]⟩]⟩, [PollIn.pending]) ∧
    hasherRun demoEnv (.item ⟨2, [99]⟩ :: [PollIn.pending]) () = []) :=
  ⟨⟨by decide, by decide, by decide⟩,
    invalid_encoding_panics demoEnv ⟨2, [99]⟩ [PollIn.pending] ⟨(), [[5]], [⟨1, [5]⟩]⟩ ()
      (by decide) (by decide) (by decide) (by decide)⟩

end BeeP
